import Mathlib

/-!
Verification of the proto-regulate descriptor merger and canonical text generator

This development shallowly embeds the core of the `proto-regulate` crate:
the descriptor data model (`FieldDescriptorProto`, `DescriptorProto`, ...),
the canonical text generator (`src/text_gen.rs`), the package merger
(`src/merge.rs`) and the SHA-256 fingerprinter (`src/lib.rs`), and proves
the specification's claims about them.

Conventions of the embedding:
* Rust `Option<T>` fields become `Option T`; protobuf getter defaults
  (`""` for strings, `0` for numbers, `false` for bools) are the `...D`
  accessors below.
* Rust `i32` values are `Int`.
* The mutable output buffer / indent level / `current_message` /
  `current_file` of `TextGenerator` become explicit parameters and string
  concatenation; `Vec::sort_by` (a stable sort) becomes the stable
  insertion sort `sortByKey`.
* `write_message` and `write_field` are recursive through `nested_type`
  lists and group bodies; the Rust recursion can only terminate by
  visiting structurally distinct descriptors, so both take an explicit
  fuel argument and the entry point supplies `fileFuel` (the message
  node count of the file), which dominates every terminating recursion
  depth of the source.
* In string literals a brace character is written with its escape
  `\x7b` / `\x7d`.
-/

/-! ## Data model (mirrors `protobuf::descriptor` as used by the crate) -/

/-- Mirrors `FieldOptions` restricted to the keys `write_field_options` reads. -/
structure FieldOptions where
  packed : Option Bool := none
  deprecated : Option Bool := none
  lazy : Option Bool := none
  weak : Option Bool := none
  ctype : Option Int := none
  jstype : Option Int := none
deriving Repr, DecidableEq

/-- Mirrors `FieldDescriptorProto`.  `label`: 1 = OPTIONAL, 2 = REQUIRED,
3 = REPEATED.  `type_`: the 18-member protobuf type enum
(1 double ... 10 group, 11 message, 12 bytes, 13 uint32, 14 enum,
15 sfixed32, 16 sfixed64, 17 sint32, 18 sint64). -/
structure FieldDescriptorProto where
  name : Option String := none
  number : Option Int := none
  label : Option Int := none
  type_ : Option Int := none
  type_name : Option String := none
  extendee : Option String := none
  default_value : Option String := none
  oneof_index : Option Int := none
  proto3_optional : Option Bool := none
  options : Option FieldOptions := none
deriving Repr, DecidableEq

structure OneofDescriptorProto where
  name : Option String := none
deriving Repr, DecidableEq

structure ExtensionRange where
  start : Option Int := none
  end_ : Option Int := none
deriving Repr, DecidableEq

structure ReservedRange where
  start : Option Int := none
  end_ : Option Int := none
deriving Repr, DecidableEq

structure MessageOptions where
  message_set_wire_format : Option Bool := none
  no_standard_descriptor_accessor : Option Bool := none
  deprecated : Option Bool := none
  map_entry : Option Bool := none
deriving Repr, DecidableEq

structure EnumValueOptions where
  deprecated : Option Bool := none
deriving Repr, DecidableEq

structure EnumValueDescriptorProto where
  name : Option String := none
  number : Option Int := none
  options : Option EnumValueOptions := none
deriving Repr, DecidableEq

structure EnumReservedRange where
  start : Option Int := none
  end_ : Option Int := none
deriving Repr, DecidableEq

structure EnumOptions where
  allow_alias : Option Bool := none
  deprecated : Option Bool := none
deriving Repr, DecidableEq

structure EnumDescriptorProto where
  name : Option String := none
  value : List EnumValueDescriptorProto := []
  reserved_range : List EnumReservedRange := []
  reserved_name : List String := []
  options : Option EnumOptions := none
deriving Repr, DecidableEq

/-- Mirrors `DescriptorProto` (a message); recursive through `nested_type`. -/
inductive DescriptorProto where
  | mk
      (name : Option String)
      (field : List FieldDescriptorProto)
      (nested_type : List DescriptorProto)
      (enum_type : List EnumDescriptorProto)
      (extension : List FieldDescriptorProto)
      (extension_range : List ExtensionRange)
      (oneof_decl : List OneofDescriptorProto)
      (reserved_range : List ReservedRange)
      (reserved_name : List String)
      (options : Option MessageOptions)
deriving Repr

def DescriptorProto.name : DescriptorProto → Option String
  | .mk n _ _ _ _ _ _ _ _ _ => n

def DescriptorProto.field : DescriptorProto → List FieldDescriptorProto
  | .mk _ f _ _ _ _ _ _ _ _ => f

def DescriptorProto.nested_type : DescriptorProto → List DescriptorProto
  | .mk _ _ n _ _ _ _ _ _ _ => n

def DescriptorProto.enum_type : DescriptorProto → List EnumDescriptorProto
  | .mk _ _ _ e _ _ _ _ _ _ => e

def DescriptorProto.extension : DescriptorProto → List FieldDescriptorProto
  | .mk _ _ _ _ e _ _ _ _ _ => e

def DescriptorProto.extension_range : DescriptorProto → List ExtensionRange
  | .mk _ _ _ _ _ e _ _ _ _ => e

def DescriptorProto.oneof_decl : DescriptorProto → List OneofDescriptorProto
  | .mk _ _ _ _ _ _ o _ _ _ => o

def DescriptorProto.reserved_range : DescriptorProto → List ReservedRange
  | .mk _ _ _ _ _ _ _ r _ _ => r

def DescriptorProto.reserved_name : DescriptorProto → List String
  | .mk _ _ _ _ _ _ _ _ r _ => r

def DescriptorProto.options : DescriptorProto → Option MessageOptions
  | .mk _ _ _ _ _ _ _ _ _ o => o

structure MethodOptions where
  deprecated : Option Bool := none
deriving Repr, DecidableEq

structure MethodDescriptorProto where
  name : Option String := none
  input_type : Option String := none
  output_type : Option String := none
  client_streaming : Option Bool := none
  server_streaming : Option Bool := none
  options : Option MethodOptions := none
deriving Repr, DecidableEq

structure ServiceOptions where
  deprecated : Option Bool := none
deriving Repr, DecidableEq

structure ServiceDescriptorProto where
  name : Option String := none
  method : List MethodDescriptorProto := []
  options : Option ServiceOptions := none
deriving Repr, DecidableEq

/-- Mirrors `FileOptions` restricted to the keys `write_file_options` and
`merge_file_options` read.  `optimize_for`: 1 SPEED, 2 CODE_SIZE,
3 LITE_RUNTIME. -/
structure FileOptions where
  java_package : Option String := none
  java_outer_classname : Option String := none
  java_multiple_files : Option Bool := none
  java_string_check_utf8 : Option Bool := none
  go_package : Option String := none
  optimize_for : Option Int := none
  cc_enable_arenas : Option Bool := none
  cc_generic_services : Option Bool := none
  java_generic_services : Option Bool := none
  py_generic_services : Option Bool := none
  objc_class_prefix : Option String := none
  csharp_namespace : Option String := none
  swift_prefix : Option String := none
  php_class_prefix : Option String := none
  php_namespace : Option String := none
  php_metadata_namespace : Option String := none
  ruby_package : Option String := none
deriving Repr, DecidableEq

/-- Mirrors `FileDescriptorProto`.  The `syntax` field of the Rust type is named
`syn` here. -/
structure FileDescriptorProto where
  syn : Option String := none
  package : Option String := none
  dependency : List String := []
  public_dependency : List Int := []
  weak_dependency : List Int := []
  message_type : List DescriptorProto := []
  enum_type : List EnumDescriptorProto := []
  service : List ServiceDescriptorProto := []
  extension : List FieldDescriptorProto := []
  options : Option FileOptions := none
deriving Repr

/-! ### Protobuf getter defaults -/

def FieldDescriptorProto.nameD (f : FieldDescriptorProto) : String := f.name.getD ""

def FieldDescriptorProto.numberD (f : FieldDescriptorProto) : Int := f.number.getD 0

def DescriptorProto.nameD (m : DescriptorProto) : String := m.name.getD ""

def EnumDescriptorProto.nameD (e : EnumDescriptorProto) : String := e.name.getD ""

def EnumValueDescriptorProto.nameD (v : EnumValueDescriptorProto) : String := v.name.getD ""

def EnumValueDescriptorProto.numberD (v : EnumValueDescriptorProto) : Int := v.number.getD 0

def ServiceDescriptorProto.nameD (s : ServiceDescriptorProto) : String := s.name.getD ""

def MethodDescriptorProto.nameD (m : MethodDescriptorProto) : String := m.name.getD ""

def OneofDescriptorProto.nameD (o : OneofDescriptorProto) : String := o.name.getD ""

def ExtensionRange.startD (r : ExtensionRange) : Int := r.start.getD 0

def ExtensionRange.endD (r : ExtensionRange) : Int := r.end_.getD 0

def ReservedRange.startD (r : ReservedRange) : Int := r.start.getD 0

def ReservedRange.endD (r : ReservedRange) : Int := r.end_.getD 0

def EnumReservedRange.startD (r : EnumReservedRange) : Int := r.start.getD 0

def EnumReservedRange.endD (r : EnumReservedRange) : Int := r.end_.getD 0

/-! ## Stable sort (model of Rust's stable `Vec::sort_by` / `sort_by_key`) -/

/-- Insert `a` into `l` before the first element `b` with `le a b`.
For a total preorder `le` this realises a stable sort step. -/
def insertSorted (le : α → α → Bool) (x : α) : List α → List α
  | [] => [x]
  | y :: rest => if le x y then x :: y :: rest else y :: insertSorted le x rest

/-- Stable insertion sort; agrees with Rust's stable `sort_by` whenever
`le` is a total preorder (stable sorts are unique). -/
def sortByKey (le : α → α → Bool) : List α → List α
  | [] => []
  | a :: l => insertSorted le a (sortByKey le l)

/-- Sortedness with respect to a boolean comparator. -/
def SortedBy (le : α → α → Bool) (l : List α) : Prop :=
  List.Pairwise (fun a b => le a b = true) l

/-! ### The comparators the crate uses

Rust compares `String`s bytewise; on UTF-8 that agrees with the
codepoint-lexicographic order implemented here on `Char` lists. -/

/-- Lexicographic strict order on character lists (`str::cmp == Less`). -/
def strLtList : List Char → List Char → Bool
  | _ :: _, [] => false
  | [], [] => false
  | [], _ :: _ => true
  | c :: cs, d :: ds =>
      if c.toNat < d.toNat then true
      else if d.toNat < c.toNat then false
      else strLtList cs ds

/-- Mirrors `a.cmp(b) == Less` for strings. -/
def strLtB (a b : String) : Bool := strLtList a.data b.data

/-- Mirrors `a.cmp(b) != Greater` for strings. -/
def strLeB (a b : String) : Bool := !(strLtB b a)

/-- Mirrors `a.cmp(b) != Greater` for `i32`. -/
def intLeB (a b : Int) : Bool := decide (a ≤ b)

/-! ## Canonical text generator (`src/text_gen.rs`) -/

/-- Mirrors `TEXT_GENERATOR_VERSION`. -/
def TEXT_GENERATOR_VERSION : String := "1.0.0"

structure TextGeneratorOptions where
  indent_size : Nat := 2
  sort_messages : Bool := true
  sort_enums : Bool := true
  sort_services : Bool := true
deriving Repr, DecidableEq

/-- Mirrors `TextGeneratorOptions::default()`. -/
def defaultTGOptions : TextGeneratorOptions := {}

/-- Mirrors `write_indent` at a given nesting level. -/
def indentStr (opts : TextGeneratorOptions) (lvl : Nat) : String :=
  String.mk (List.replicate (lvl * opts.indent_size) ' ')

def boolStr (b : Bool) : String := if b then "true" else "false"

/-- Mirrors `TextGenerator::escape_string`, per character. -/
def escapeChar (c : Char) : String :=
  if c = '\\' then "\\\\"
  else if c = '"' then "\\\""
  else if c = '\n' then "\\n"
  else if c = '\r' then "\\r"
  else if c = '\t' then "\\t"
  else String.mk [c]

def escape_string (s : String) : String := String.join (s.data.map escapeChar)

def octDigit (n : Nat) : Char := Char.ofNat (48 + n % 8)

/-- Mirrors `TextGenerator::escape_bytes`, per byte. -/
def escapeByte (b : Nat) : String :=
  if b = 34 then "\\\""
  else if b = 92 then "\\\\"
  else if b = 10 then "\\n"
  else if b = 13 then "\\r"
  else if b = 9 then "\\t"
  else if 32 ≤ b ∧ b ≤ 126 then String.mk [Char.ofNat b]
  else "\\" ++ String.mk [octDigit (b / 64), octDigit (b / 8), octDigit b]

def escape_bytes (bs : List Nat) : String := String.join (bs.map escapeByte)

/-- UTF-8 encoding of one code point (`str::as_bytes` model). -/
def utf8EncodeCp (c : Nat) : List Nat :=
  if c < 128 then [c]
  else if c < 2048 then [192 + c / 64, 128 + c % 64]
  else if c < 65536 then [224 + c / 4096, 128 + c / 64 % 64, 128 + c % 64]
  else [240 + c / 262144, 128 + c / 4096 % 64, 128 + c / 64 % 64, 128 + c % 64]

def utf8Bytes (s : String) : List Nat :=
  List.flatten (s.data.map (fun c => utf8EncodeCp c.toNat))

/-- Mirrors `format_type_name`: strip every leading `.`. -/
def stripDots (s : String) : String := String.mk (s.data.dropWhile (fun c => c = '.'))

/-- Mirrors `str::split('.')` (always at least one piece). -/
def splitDotAux : List Char → List Char → List String
  | [], acc => [String.mk acc.reverse]
  | c :: cs, acc =>
      if c = '.' then String.mk acc.reverse :: splitDotAux cs []
      else splitDotAux cs (c :: acc)

def splitDot (s : String) : List String := splitDotAux s.data []

/-- Mirrors `type_name.split('.').next_back()`. -/
def lastComponent (s : String) : String := (splitDot s).getLastD s

/-- Mirrors `field_type_to_string`. -/
def field_type_to_string (t : Int) : String :=
  if t == 1 then "double"
  else if t == 2 then "float"
  else if t == 3 then "int64"
  else if t == 4 then "uint64"
  else if t == 5 then "int32"
  else if t == 6 then "fixed64"
  else if t == 7 then "fixed32"
  else if t == 8 then "bool"
  else if t == 9 then "string"
  else if t == 10 then "group"
  else if t == 11 then "message"
  else if t == 12 then "bytes"
  else if t == 13 then "uint32"
  else if t == 14 then "enum"
  else if t == 15 then "sfixed32"
  else if t == 16 then "sfixed64"
  else if t == 17 then "sint32"
  else if t == 18 then "sint64"
  else "unknown"

/-- Mirrors `is_map_entry`. -/
def is_map_entry (m : DescriptorProto) : Bool :=
  (m.options.bind (fun o => o.map_entry)).getD false

/-- Mirrors `get_group_message_names` (as a list; only membership is used). -/
def groupMessageNames (m : DescriptorProto) : List String :=
  m.field.filterMap (fun f =>
    match f.type_ with
    | some t => if t == 10 then f.type_name.map lastComponent else none
    | none => none)

/-- Mirrors `normalize_float_default`. -/
def normalize_float_default (v : String) : String :=
  if v = "Infinity" ∨ v = "+Infinity" ∨ v = "+Inf" ∨ v = "Inf" then "inf"
  else if v = "-Infinity" ∨ v = "-Inf" then "-inf"
  else if v = "NaN" ∨ v = "nan" then "nan"
  else v

/-- The value of a nonempty all-digit character list. -/
def digitsVal (cs : List Char) : Option Nat :=
  if cs ≠ [] ∧ cs.all (fun c => 48 ≤ c.toNat && c.toNat ≤ 57) then
    some (cs.foldl (fun n c => n * 10 + (c.toNat - 48)) 0)
  else none

/-- Mirrors `val.parse::<i32>()`: optional sign, decimal digits, in-range check. -/
def parseI32 (s : String) : Option Int :=
  let n? : Option Int :=
    match s.data with
    | '+' :: rest => (digitsVal rest).map Int.ofNat
    | '-' :: rest => (digitsVal rest).map (fun n => -(Int.ofNat n))
    | cs => (digitsVal cs).map Int.ofNat
  match n? with
  | some n => if -(2 ^ 31) ≤ n ∧ n < 2 ^ 31 then some n else none
  | none => none

/-- Mirrors `enum_number_to_name`: the walk over the remaining components after the
package prefix (`current_messages` / `current_msg` loop of the source). -/
def enumWalk (file : FileDescriptorProto) (number : Int) :
    List String → List DescriptorProto → Option DescriptorProto → Option String
  | [], _, _ => none
  | [n], _, cm =>
      let topCheck : Option String :=
        match file.enum_type.find? (fun en => en.nameD == n) with
        | some en => (en.value.find? (fun v => v.numberD == number)).map (fun v => v.nameD)
        | none => none
      (match cm with
       | some msg =>
          match msg.enum_type.find? (fun en => en.nameD == n) with
          | some en => (en.value.find? (fun v => v.numberD == number)).map (fun v => v.nameD)
          | none => topCheck
       | none => topCheck)
  | n :: rest, msgs, _ =>
      match msgs.find? (fun m => m.nameD == n) with
      | some m => enumWalk file number rest m.nested_type (some m)
      | none => none

/-- Mirrors `enum_number_to_name`. -/
def enum_number_to_name (file : FileDescriptorProto) (fq_type_name : String)
    (number : Int) : Option String :=
  let pkg := file.package.getD ""
  let comps := splitDot (stripDots fq_type_name)
  let pkgLen := if pkg = "" then 0 else (splitDot pkg).length
  if comps.length < pkgLen then none
  else
    let rest := comps.drop pkgLen
    match rest with
    | [] => none
    | first :: _ =>
      match file.enum_type.find? (fun en => en.nameD == first) with
      | some en =>
          if rest.length = 1 then
            (en.value.find? (fun v => v.numberD == number)).map (fun v => v.nameD)
          else none
      | none => enumWalk file number rest file.message_type none

/-- The key/value type rendering inside `get_map_field_info`. -/
def mapSideType (g : FieldDescriptorProto) : Option String :=
  match g.type_ with
  | none => none
  | some t =>
      if t == 11 || t == 14 then g.type_name.map stripDots
      else some (field_type_to_string t)

/-- Mirrors `get_map_field_info`. -/
def mapFieldInfo (cm : Option DescriptorProto) (f : FieldDescriptorProto) :
    Option (String × String) :=
  match f.label with
  | none => none
  | some l =>
    if l != 3 then none
    else
      match f.type_ with
      | none => none
      | some t =>
        if t != 11 then none
        else
          match f.type_name with
          | none => none
          | some tn =>
            match cm with
            | none => none
            | some m =>
              match m.nested_type.find? (fun n => n.nameD == lastComponent tn) with
              | none => none
              | some em =>
                if !is_map_entry em then none
                else if em.field.length != 2 then none
                else
                  match em.field.find? (fun g => g.nameD == "key"),
                        em.field.find? (fun g => g.nameD == "value") with
                  | some kf, some vf =>
                      (match mapSideType kf, mapSideType vf with
                       | some k, some v => some (k, v)
                       | _, _ => none)
                  | _, _ => none

/-- The label fragment of `write_field` (`required ` / `optional ` /
`repeated ` or nothing). -/
def labelString (syn : String) (f : FieldDescriptorProto) : String :=
  match f.label with
  | some l =>
      if l == 3 then "repeated "
      else if l == 2 && syn == "proto2" then "required "
      else if l == 1 && (syn == "proto2" || f.proto3_optional.getD false) then "optional "
      else ""
  | none => ""

/-- Mirrors `write_field_options` (the ` [ ... ]` suffix, empty when nothing prints). -/
def fieldOptionsString (file : FileDescriptorProto) (f : FieldDescriptorProto) : String :=
  match f.options with
  | none => ""
  | some o =>
    let opts : List String :=
      (match o.packed with
       | some v => ["packed = " ++ boolStr v]
       | none => []) ++
      (match o.deprecated with
       | some true => ["deprecated = true"]
       | _ => []) ++
      (match o.lazy with
       | some true => ["lazy = true"]
       | _ => []) ++
      (match o.weak with
       | some true => ["weak = true"]
       | _ => []) ++
      (match o.ctype with
       | some v =>
          ["ctype = " ++
            (if v == 0 then "STRING" else if v == 1 then "CORD"
             else if v == 2 then "STRING_PIECE" else "STRING")]
       | none => []) ++
      (match o.jstype with
       | some v =>
          ["jstype = " ++
            (if v == 0 then "JS_NORMAL" else if v == 1 then "JS_STRING"
             else if v == 2 then "JS_NUMBER" else "JS_NORMAL")]
       | none => []) ++
      (match f.default_value with
       | some val =>
          (match f.type_ with
           | some t =>
              if t == 9 then ["default = \"" ++ escape_string val ++ "\""]
              else if t == 12 then ["default = \"" ++ escape_bytes (utf8Bytes val) ++ "\""]
              else if t == 14 then
                [ "default = " ++
                  (match parseI32 val with
                   | some num =>
                      (match f.type_name with
                       | some tn => (enum_number_to_name file tn num).getD val
                       | none => val)
                   | none => val) ]
              else if t == 2 || t == 1 then ["default = " ++ normalize_float_default val]
              else ["default = " ++ val]
           | none => [])
       | none => [])
    if opts.isEmpty then "" else " [" ++ String.intercalate ", " opts ++ "]"

/-- Mirrors `write_field`.  `cm` is the `current_message` in effect at the call,
`ind` the indent level.  The fuel only bounds the recursion through group
bodies; the entry point passes `sizeOf` of the whole file, which exceeds
every terminating recursion depth of the source. -/
def write_field : Nat → TextGeneratorOptions → FileDescriptorProto →
    Option DescriptorProto → Nat → String → FieldDescriptorProto → String
  | 0, _, _, _, _, _, _ => ""
  | fuel+1, opts, file, cm, ind, syn, f =>
    match mapFieldInfo cm f with
    | some kv =>
        indentStr opts ind ++ "map<" ++ kv.1 ++ ", " ++ kv.2 ++ "> " ++ f.nameD ++ " = " ++
          toString f.numberD ++ fieldOptionsString file f ++ ";\n"
    | none =>
        let lab := labelString syn f
        match f.type_ with
        | some t =>
          if t == 10 then
            let gname := match f.type_name with
                         | some tn => lastComponent tn
                         | none => f.nameD
            let body :=
              match cm, f.type_name with
              | some m, some tn =>
                (match m.nested_type.find? (fun n => n.nameD == lastComponent tn) with
                 | some gm =>
                    String.join (gm.field.map
                      (fun gf => write_field fuel opts file cm (ind + 1) syn gf))
                 | none => "")
              | _, _ => ""
            indentStr opts ind ++ lab ++ "group " ++ gname ++ " = " ++ toString f.numberD ++
              fieldOptionsString file f ++ " \x7b\n" ++ body ++ indentStr opts ind ++ "\x7d\n"
          else
            let tstr :=
              if t == 11 || t == 14 then
                match f.type_name with
                | some tn => stripDots tn ++ " "
                | none => ""
              else field_type_to_string t ++ " "
            indentStr opts ind ++ lab ++ tstr ++ f.nameD ++ " = " ++ toString f.numberD ++
              fieldOptionsString file f ++ ";\n"
        | none =>
            indentStr opts ind ++ lab ++ f.nameD ++ " = " ++ toString f.numberD ++
              fieldOptionsString file f ++ ";\n"

/-- Mirrors `write_oneof` (receives the already-collected member fields). -/
def write_oneof (fuel : Nat) (opts : TextGeneratorOptions) (file : FileDescriptorProto)
    (cm : Option DescriptorProto) (ind : Nat) (syn : String)
    (fields : List FieldDescriptorProto) (o : OneofDescriptorProto) : String :=
  indentStr opts ind ++ "oneof " ++ o.nameD ++ " \x7b\n" ++
    String.join ((sortByKey (fun a b => intLeB a.numberD b.numberD) fields).map
      (fun f => write_field fuel opts file cm (ind + 1) syn f)) ++
    indentStr opts ind ++ "\x7d\n"

/-- Mirrors `write_enum_value`. -/
def write_enum_value (opts : TextGeneratorOptions) (ind : Nat)
    (v : EnumValueDescriptorProto) : String :=
  indentStr opts ind ++ v.nameD ++ " = " ++ toString v.numberD ++
    (match v.options with
     | some o => (match o.deprecated with
                  | some true => " [deprecated = true]"
                  | _ => "")
     | none => "") ++ ";\n"

/-- Mirrors `write_enum_options`. -/
def write_enum_options (opts : TextGeneratorOptions) (ind : Nat)
    (e : EnumDescriptorProto) : String :=
  (match e.options with
   | some o =>
      (match o.allow_alias with
       | some true => indentStr opts ind ++ "option allow_alias = true;\n"
       | _ => "") ++
      (match o.deprecated with
       | some true => indentStr opts ind ++ "option deprecated = true;\n"
       | _ => "")
   | none => "")

/-- One reserved range of a message, as printed by `write_reserved`
(half-open `[start, end)`). -/
def msgRangeText (r : ReservedRange) : String :=
  if r.startD + 1 == r.endD then toString r.startD
  else
    let ev := r.endD - 1
    if ev == 536870911 then toString r.startD ++ " to max"
    else toString r.startD ++ " to " ++ toString ev

/-- One reserved range of an enum, as printed by `write_enum_reserved`
(inclusive `[start, end]`). -/
def enumRangeText (r : EnumReservedRange) : String :=
  if r.startD == r.endD then toString r.startD
  else if r.endD == 536870911 then toString r.startD ++ " to max"
  else toString r.startD ++ " to " ++ toString r.endD

/-- Mirrors `write_reserved` (message reserved ranges, then reserved names). -/
def write_reserved (opts : TextGeneratorOptions) (ind : Nat) (m : DescriptorProto) : String :=
  (if m.reserved_range.isEmpty then ""
   else indentStr opts ind ++ "reserved " ++
     String.intercalate ", " (m.reserved_range.map msgRangeText) ++ ";\n") ++
  (if m.reserved_name.isEmpty then ""
   else indentStr opts ind ++ "reserved " ++
     String.intercalate ", " (m.reserved_name.map (fun n => "\"" ++ n ++ "\"")) ++ ";\n")

/-- Mirrors `write_enum_reserved`. -/
def write_enum_reserved (opts : TextGeneratorOptions) (ind : Nat)
    (e : EnumDescriptorProto) : String :=
  (if e.reserved_range.isEmpty then ""
   else indentStr opts ind ++ "reserved " ++
     String.intercalate ", " (e.reserved_range.map enumRangeText) ++ ";\n") ++
  (if e.reserved_name.isEmpty then ""
   else indentStr opts ind ++ "reserved " ++
     String.intercalate ", " (e.reserved_name.map (fun n => "\"" ++ n ++ "\"")) ++ ";\n")

/-- The enum values in the order `write_enum` emits them (ascending number). -/
def sortedEnumValues (e : EnumDescriptorProto) : List EnumValueDescriptorProto :=
  sortByKey (fun a b => intLeB a.numberD b.numberD) e.value

/-- Mirrors `write_enum`. -/
def write_enum (opts : TextGeneratorOptions) (ind : Nat) (e : EnumDescriptorProto) : String :=
  indentStr opts ind ++ "enum " ++ e.nameD ++ " \x7b\n" ++
    write_enum_options opts (ind + 1) e ++
    String.join ((sortedEnumValues e).map (write_enum_value opts (ind + 1))) ++
    write_enum_reserved opts (ind + 1) e ++
    indentStr opts ind ++ "\x7d\n"

/-- Mirrors `write_message_options`. -/
def write_message_options (opts : TextGeneratorOptions) (ind : Nat)
    (m : DescriptorProto) : String :=
  (match m.options with
   | some o =>
      (match o.message_set_wire_format with
       | some true => indentStr opts ind ++ "option message_set_wire_format = true;\n"
       | _ => "") ++
      (match o.no_standard_descriptor_accessor with
       | some true => indentStr opts ind ++ "option no_standard_descriptor_accessor = true;\n"
       | _ => "") ++
      (match o.deprecated with
       | some true => indentStr opts ind ++ "option deprecated = true;\n"
       | _ => "")
   | none => "")

/-- One `extensions ...;` line. -/
def extRangeLine (opts : TextGeneratorOptions) (ind : Nat) (r : ExtensionRange) : String :=
  if r.startD + 1 == r.endD then
    indentStr opts ind ++ "extensions " ++ toString r.startD ++ ";\n"
  else
    let ev := r.endD - 1
    if ev == 536870911 then
      indentStr opts ind ++ "extensions " ++ toString r.startD ++ " to max;\n"
    else
      indentStr opts ind ++ "extensions " ++ toString r.startD ++ " to " ++ toString ev ++ ";\n"

def enumFrom (i : Nat) : List α → List (Nat × α)
  | [] => []
  | a :: l => (i, a) :: enumFrom (i + 1) l

/-- The regular-field filter of `write_message`: not in a oneof, or a
proto3 optional field (whose synthetic oneof is suppressed). -/
def isRegularField (f : FieldDescriptorProto) : Bool :=
  f.oneof_index.isNone || f.proto3_optional.getD false

/-- The regular fields in the order `write_message` emits them
(ascending field number). -/
def sortedRegularFields (m : DescriptorProto) : List FieldDescriptorProto :=
  sortByKey (fun a b => intLeB a.numberD b.numberD) (m.field.filter isRegularField)

/-- The member fields collected for the oneof at index `i` (skipping
synthetic proto3-optional members). -/
def oneofMembers (m : DescriptorProto) (i : Nat) : List FieldDescriptorProto :=
  m.field.filter (fun f =>
    (match f.oneof_index with
     | some idx => idx == (i : Int)
     | none => false) && !(f.proto3_optional.getD false))

/-- The oneof section of `write_message`: one block per declared oneof,
empty for oneofs without (non-synthetic) members.  `ind` is the child
indent level. -/
def oneofBlocks (fuel : Nat) (opts : TextGeneratorOptions) (file : FileDescriptorProto)
    (m : DescriptorProto) (ind : Nat) (syn : String) : List String :=
  (enumFrom 0 m.oneof_decl).map (fun p =>
    let fs := oneofMembers m p.1
    if fs.isEmpty then ""
    else write_oneof fuel opts file (some m) ind syn fs p.2)

/-- Mirrors `write_message`.  `cm` is the `current_message` in effect at entry;
the source saves it, uses `some m` for regular fields and oneofs, and
restores it before rendering message-level extensions, so nested
messages and extensions see the entry value. -/
def write_message : Nat → TextGeneratorOptions → FileDescriptorProto →
    Option DescriptorProto → Nat → String → DescriptorProto → String
  | 0, _, _, _, _, _, _ => ""
  | fuel+1, opts, file, cm, ind, syn, m =>
    if is_map_entry m then ""
    else
      indentStr opts ind ++ "message " ++ m.nameD ++ " \x7b\n" ++
      write_message_options opts (ind + 1) m ++
      String.join (m.enum_type.map (write_enum opts (ind + 1))) ++
      String.join (m.nested_type.map (fun n =>
        if (groupMessageNames m).contains n.nameD then ""
        else write_message fuel opts file cm (ind + 1) syn n)) ++
      String.join ((sortedRegularFields m).map
        (fun f => write_field fuel opts file (some m) (ind + 1) syn f)) ++
      String.join (oneofBlocks fuel opts file m (ind + 1) syn) ++
      String.join (m.extension.map
        (fun ef => write_field fuel opts file cm (ind + 1) syn ef)) ++
      String.join (m.extension_range.map (extRangeLine opts (ind + 1))) ++
      write_reserved opts (ind + 1) m ++
      indentStr opts ind ++ "\x7d\n"

/-- Mirrors `modify` at an `i32` index (`get_mut(idx as usize)`: out of range and
negative indices are no-ops). -/
def modifyAtNat (g : α → α) : Nat → List α → List α
  | _, [] => []
  | 0, a :: l => g a :: l
  | n+1, a :: l => a :: modifyAtNat g n l

def modifyAtInt (l : List α) (i : Int) (g : α → α) : List α :=
  if 0 ≤ i then modifyAtNat g i.toNat l else l

/-- The import-sorting comparator: `(kind_rank, path)` ascending. -/
def importRank (p : String × Bool × Bool) : Nat :=
  if p.2.1 then 1 else if p.2.2 then 2 else 0

def importLeB (a b : String × Bool × Bool) : Bool :=
  decide (importRank a < importRank b) ||
    (importRank a == importRank b && strLeB a.1 b.1)

/-- Mirrors `write_imports`. -/
def write_imports (file : FileDescriptorProto) : String :=
  if file.dependency.isEmpty && file.public_dependency.isEmpty &&
      file.weak_dependency.isEmpty then ""
  else
    let imports0 := file.dependency.map (fun d => (d, false, false))
    let imports1 := file.public_dependency.foldl
      (fun l i => modifyAtInt l i (fun p => (p.1, true, p.2.2))) imports0
    let imports2 := file.weak_dependency.foldl
      (fun l i => modifyAtInt l i (fun p => (p.1, p.2.1, true))) imports1
    String.join ((sortByKey importLeB imports2).map (fun p =>
      if p.2.1 then "import public \"" ++ p.1 ++ "\";\n"
      else if p.2.2 then "import weak \"" ++ p.1 ++ "\";\n"
      else "import \"" ++ p.1 ++ "\";\n")) ++ "\n"

/-- Mirrors `write_file_options`. -/
def write_file_options (file : FileDescriptorProto) : String :=
  match file.options with
  | none => ""
  | some o =>
    let opts : List String :=
      (match o.java_package with
       | some v => ["option java_package = \"" ++ escape_string v ++ "\";"]
       | none => []) ++
      (match o.java_outer_classname with
       | some v => ["option java_outer_classname = \"" ++ escape_string v ++ "\";"]
       | none => []) ++
      (match o.java_multiple_files with
       | some v => ["option java_multiple_files = " ++ boolStr v ++ ";"]
       | none => []) ++
      (match o.java_string_check_utf8 with
       | some v => ["option java_string_check_utf8 = " ++ boolStr v ++ ";"]
       | none => []) ++
      (match o.go_package with
       | some v => ["option go_package = \"" ++ escape_string v ++ "\";"]
       | none => []) ++
      (match o.optimize_for with
       | some v =>
          ["option optimize_for = " ++
            (if v == 1 then "SPEED" else if v == 2 then "CODE_SIZE"
             else if v == 3 then "LITE_RUNTIME" else "SPEED") ++ ";"]
       | none => []) ++
      (match o.cc_enable_arenas with
       | some v => ["option cc_enable_arenas = " ++ boolStr v ++ ";"]
       | none => []) ++
      (match o.cc_generic_services with
       | some v => ["option cc_generic_services = " ++ boolStr v ++ ";"]
       | none => []) ++
      (match o.java_generic_services with
       | some v => ["option java_generic_services = " ++ boolStr v ++ ";"]
       | none => []) ++
      (match o.py_generic_services with
       | some v => ["option py_generic_services = " ++ boolStr v ++ ";"]
       | none => []) ++
      (match FileOptions.objc_class_prefix o with
       | some v => ["option objc_class_prefix = \"" ++ escape_string v ++ "\";"]
       | none => []) ++
      (match o.csharp_namespace with
       | some v => ["option csharp_namespace = \"" ++ escape_string v ++ "\";"]
       | none => []) ++
      (match FileOptions.swift_prefix o with
       | some v => ["option swift_prefix = \"" ++ escape_string v ++ "\";"]
       | none => []) ++
      (match FileOptions.php_class_prefix o with
       | some v => ["option php_class_prefix = \"" ++ escape_string v ++ "\";"]
       | none => []) ++
      (match o.php_namespace with
       | some v => ["option php_namespace = \"" ++ escape_string v ++ "\";"]
       | none => []) ++
      (match o.php_metadata_namespace with
       | some v => ["option php_metadata_namespace = \"" ++ escape_string v ++ "\";"]
       | none => []) ++
      (match o.ruby_package with
       | some v => ["option ruby_package = \"" ++ escape_string v ++ "\";"]
       | none => [])
    let sorted := sortByKey strLeB opts
    if sorted.isEmpty then ""
    else String.join (sorted.map (fun s => s ++ "\n")) ++ "\n"

/-- The top-level messages in the order `write_messages` emits them. -/
def sortedMessages (opts : TextGeneratorOptions) (file : FileDescriptorProto) :
    List DescriptorProto :=
  if opts.sort_messages then
    sortByKey (fun a b => strLeB a.nameD b.nameD) file.message_type
  else file.message_type

/-- Mirrors `write_messages` (a blank line after every message, skipped ones included). -/
def write_messages (fuel : Nat) (opts : TextGeneratorOptions)
    (file : FileDescriptorProto) (syn : String) : String :=
  String.join ((sortedMessages opts file).map
    (fun m => write_message fuel opts file none 0 syn m ++ "\n"))

/-- The top-level enums in the order `write_enums` emits them. -/
def sortedEnums (opts : TextGeneratorOptions) (file : FileDescriptorProto) :
    List EnumDescriptorProto :=
  if opts.sort_enums then sortByKey (fun a b => strLeB a.nameD b.nameD) file.enum_type
  else file.enum_type

def write_enums (opts : TextGeneratorOptions) (file : FileDescriptorProto) : String :=
  String.join ((sortedEnums opts file).map (fun e => write_enum opts 0 e ++ "\n"))

/-- The part of `write_method` before the options block:
`rpc <Name>([stream ]<req>) returns ([stream ]<resp>)`. -/
def methodHead (opts : TextGeneratorOptions) (ind : Nat)
    (mth : MethodDescriptorProto) : String :=
  indentStr opts ind ++ "rpc " ++ mth.nameD ++ "(" ++
    (if mth.client_streaming.getD false then "stream " else "") ++
    (match mth.input_type with | some t => stripDots t | none => "") ++
    ") returns (" ++
    (if mth.server_streaming.getD false then "stream " else "") ++
    (match mth.output_type with | some t => stripDots t | none => "") ++
    ")"

/-- Whether `write_method` prints the `option deprecated = true` block. -/
def methodDeprecated (mth : MethodDescriptorProto) : Bool :=
  (mth.options.bind (fun o => o.deprecated)).getD false

/-- Mirrors `write_method` (note: the `;` is written unconditionally, after the
deprecation block when one is present). -/
def write_method (opts : TextGeneratorOptions) (ind : Nat)
    (mth : MethodDescriptorProto) : String :=
  methodHead opts ind mth ++
    (match mth.options with
     | some o =>
        (match o.deprecated with
         | some true =>
            " \x7b\n" ++ indentStr opts (ind + 1) ++ "option deprecated = true;\n" ++
              indentStr opts ind ++ "\x7d"
         | _ => "")
     | none => "") ++ ";\n"

/-- The methods in the order `write_service` emits them (ascending name). -/
def sortedMethods (s : ServiceDescriptorProto) : List MethodDescriptorProto :=
  sortByKey (fun a b => strLeB a.nameD b.nameD) s.method

/-- Mirrors `write_service` (always called at indent level 0). -/
def write_service (opts : TextGeneratorOptions) (s : ServiceDescriptorProto) : String :=
  indentStr opts 0 ++ "service " ++ s.nameD ++ " \x7b\n" ++
    (match s.options with
     | some o =>
        (match o.deprecated with
         | some true => indentStr opts 1 ++ "option deprecated = true;\n"
         | _ => "")
     | none => "") ++
    String.join ((sortedMethods s).map (write_method opts 1)) ++
    indentStr opts 0 ++ "\x7d\n"

/-- The services in the order `write_services` emits them. -/
def sortedServices (opts : TextGeneratorOptions) (file : FileDescriptorProto) :
    List ServiceDescriptorProto :=
  if opts.sort_services then
    sortByKey (fun a b => strLeB a.nameD b.nameD) file.service
  else file.service

def write_services (opts : TextGeneratorOptions) (file : FileDescriptorProto) : String :=
  String.join ((sortedServices opts file).map (fun s => write_service opts s ++ "\n"))

/-- The `BTreeMap` grouping of file-level extensions by extendee
(sorted keys, insertion order within a key). -/
def insertExtGroup (key : String) (f : FieldDescriptorProto) :
    List (String × List FieldDescriptorProto) → List (String × List FieldDescriptorProto)
  | [] => [(key, [f])]
  | (q, g) :: rest =>
      if key == q then (q, g ++ [f]) :: rest
      else if strLtB key q then (key, [f]) :: (q, g) :: rest
      else (q, g) :: insertExtGroup key f rest

def extGroups (file : FileDescriptorProto) : List (String × List FieldDescriptorProto) :=
  file.extension.foldl (fun m f => insertExtGroup (f.extendee.getD "") f m) []

/-- Mirrors `write_extensions` (file level; `current_message` is `None` there). -/
def write_extensions (fuel : Nat) (opts : TextGeneratorOptions)
    (file : FileDescriptorProto) (syn : String) : String :=
  String.join ((extGroups file).map (fun pg =>
    indentStr opts 0 ++ "extend " ++ stripDots pg.1 ++ " \x7b\n" ++
      String.join ((sortByKey (fun a b => intLeB a.numberD b.numberD) pg.2).map
        (fun f => write_field fuel opts file none 1 syn f)) ++
      indentStr opts 0 ++ "\x7d\n"))

mutual

/-- The number of message nodes in a descriptor tree (mutually with
`msgsSize`).  `1 + msgsSize file.message_type` bounds both the message
nesting depth and the length of any terminating group-body chain, so it
is a sufficient fuel for `write_message` / `write_field` wherever the
source recursion terminates. -/
def msgSize : DescriptorProto → Nat
  | .mk _ _ nested _ _ _ _ _ _ _ => 1 + msgsSize nested

def msgsSize : List DescriptorProto → Nat
  | [] => 0
  | m :: l => msgSize m + msgsSize l

end

def fileFuel (file : FileDescriptorProto) : Nat := 1 + msgsSize file.message_type

/-- Mirrors `TextGenerator::format_file`. -/
def format_file (opts : TextGeneratorOptions) (file : FileDescriptorProto) : String :=
  let fuel := fileFuel file
  let syn := file.syn.getD "proto2"
  (if syn != "" then "syntax = \"" ++ syn ++ "\";\n\n" else "") ++
  (match file.package with
   | some p => if p != "" then "package " ++ p ++ ";\n\n" else ""
   | none => "") ++
  write_imports file ++
  write_file_options file ++
  write_messages fuel opts file syn ++
  write_enums opts file ++
  write_services opts file ++
  write_extensions fuel opts file syn

/-- Mirrors `descriptor_to_proto`. -/
def descriptor_to_proto (file : FileDescriptorProto) : String :=
  format_file defaultTGOptions file

/-! ## SHA-256 (`sha2::Sha256` as used by `generate_fingerprint`) -/

def rotr32 (n w : Nat) : Nat := w / 2 ^ n + w % 2 ^ n * 2 ^ (32 - n)

def shr32 (n w : Nat) : Nat := w / 2 ^ n

def bsig0 (x : Nat) : Nat := rotr32 2 x ^^^ rotr32 13 x ^^^ rotr32 22 x

def bsig1 (x : Nat) : Nat := rotr32 6 x ^^^ rotr32 11 x ^^^ rotr32 25 x

def ssig0 (x : Nat) : Nat := rotr32 7 x ^^^ rotr32 18 x ^^^ shr32 3 x

def ssig1 (x : Nat) : Nat := rotr32 17 x ^^^ rotr32 19 x ^^^ shr32 10 x

def chF (x y z : Nat) : Nat := z ^^^ (x &&& (y ^^^ z))

def majF (x y z : Nat) : Nat := (x &&& y) ^^^ (z &&& (x ^^^ y))

/-- The eight 32-bit working variables. -/
structure Sha256State where
  a : Nat
  b : Nat
  c : Nat
  d : Nat
  e : Nat
  f : Nat
  g : Nat
  hh : Nat
deriving Repr, DecidableEq

def sha256init : Sha256State :=
  ⟨1779033703, 3144134277, 1013904242, 2773480762,
   1359893119, 2600822924, 528734635, 1541459225⟩

def sha256K : List Nat :=
  [1116352408, 1899447441, 3049323471, 3921009573,
   961987163, 1508970993, 2453635748, 2870763221,
   3624381080, 310598401, 607225278, 1426881987,
   1925078388, 2162078206, 2614888103, 3248222580,
   3835390401, 4022224774, 264347078, 604807628,
   770255983, 1249150122, 1555081692, 1996064986,
   2554220882, 2821834349, 2952996808, 3210313671,
   3336571891, 3584528711, 113926993, 338241895,
   666307205, 773529912, 1294757372, 1396182291,
   1695183700, 1986661051, 2177026350, 2456956037,
   2730485921, 2820302411, 3259730800, 3345764771,
   3516065817, 3600352804, 4094571909, 275423344,
   430227734, 506948616, 659060556, 883997877,
   958139571, 1322822218, 1537002063, 1747873779,
   1955562222, 2024104815, 2227730452, 2361852424,
   2428436474, 2756734187, 3204031479, 3329325298]

def sha256Round (st : Sha256State) (kw : Nat × Nat) : Sha256State :=
  let t1 := (st.hh + bsig1 st.e + chF st.e st.f st.g + kw.1 + kw.2) % 4294967296
  let t2 := (bsig0 st.a + majF st.a st.b st.c) % 4294967296
  ⟨(t1 + t2) % 4294967296, st.a, st.b, st.c,
   (st.d + t1) % 4294967296, st.e, st.f, st.g⟩

def addStates (x y : Sha256State) : Sha256State :=
  ⟨(x.a + y.a) % 4294967296, (x.b + y.b) % 4294967296, (x.c + y.c) % 4294967296,
   (x.d + y.d) % 4294967296, (x.e + y.e) % 4294967296, (x.f + y.f) % 4294967296,
   (x.g + y.g) % 4294967296, (x.hh + y.hh) % 4294967296⟩

/-- Big-endian 32-bit words from bytes. -/
def bytesToWords : List Nat → List Nat
  | b0 :: b1 :: b2 :: b3 :: rest =>
      (((b0 * 256 + b1) * 256 + b2) * 256 + b3) :: bytesToWords rest
  | _ => []

/-- Extend the 16-word schedule by `n` more words. -/
def schedRounds : Nat → List Nat → List Nat
  | 0, w => w
  | n+1, w =>
      let t := w.length
      let nw := (w.getD (t - 16) 0 + ssig0 (w.getD (t - 15) 0) + w.getD (t - 7) 0 +
        ssig1 (w.getD (t - 2) 0)) % 4294967296
      schedRounds n (w ++ [nw])

def compressChunk (st : Sha256State) (chunk : List Nat) : Sha256State :=
  let w := schedRounds 48 (bytesToWords chunk)
  addStates st ((sha256K.zip w).foldl sha256Round st)

/-- The message length in bits, as 8 big-endian bytes. -/
def lenBytes8 (n : Nat) : List Nat :=
  [n / 2 ^ 56 % 256, n / 2 ^ 48 % 256, n / 2 ^ 40 % 256, n / 2 ^ 32 % 256,
   n / 2 ^ 24 % 256, n / 2 ^ 16 % 256, n / 2 ^ 8 % 256, n % 256]

/-- SHA-256 padding: `0x80`, zeros to 56 mod 64, then the bit length. -/
def padMessage (msg : List Nat) : List Nat :=
  msg ++ [128] ++ List.replicate ((119 - msg.length % 64) % 64) 0 ++
    lenBytes8 (msg.length * 8)

def chunks64 : Nat → List Nat → List (List Nat)
  | 0, _ => []
  | _, [] => []
  | fuel+1, l => l.take 64 :: chunks64 fuel (l.drop 64)

def sha256 (msg : List Nat) : Sha256State :=
  (chunks64 (padMessage msg).length (padMessage msg)).foldl compressChunk sha256init

def hexChars : List Char := String.data "0123456789abcdef"

def hexDigitChar (n : Nat) : Char := hexChars.getD n '0'

/-- A 32-bit word as 8 lowercase hex digits (most significant first). -/
def wordToHex (w : Nat) : String :=
  String.mk ((List.range 8).map (fun k => hexDigitChar (w / 16 ^ (7 - k) % 16)))

/-- Mirrors the lowercase-hex digest formatting: 64 hex digits. -/
def sha256hexBytes (msg : List Nat) : String :=
  let st := sha256 msg
  wordToHex st.a ++ wordToHex st.b ++ wordToHex st.c ++ wordToHex st.d ++
    wordToHex st.e ++ wordToHex st.f ++ wordToHex st.g ++ wordToHex st.hh

/-- SHA-256 hex digest of the UTF-8 bytes of a string. -/
def sha256hexOfString (s : String) : String := sha256hexBytes (utf8Bytes s)

/-! ## The merger (`src/merge.rs`) and fingerprinter (`src/lib.rs`)

The schema parser (`protobuf_parse::Parser`) is an external collaborator
(spec section 6): `parse_proto_to_file_descriptor` is modelled as an abstract
parameter `parse : String → Except String FileDescriptorProto` delivering a
well-formed descriptor tree or a diagnostic. -/

/-- The kind tag of a `DuplicateSymbol` error. -/
inductive DeclKind where
  | message
  | enum
  | service
deriving Repr, DecidableEq

/-- The error kinds of the merger (the payloads of the `bail!` /
`with_context` messages of the source). -/
inductive MergeError where
  | parseFailure (idx : Nat) (msg : String)
  | syntaxConflict (observed : List String)
  | duplicateSymbol (kind : DeclKind) (name : String) (first second : Nat)
  | fingerprintFailure (msg : String)
deriving Repr, DecidableEq

structure MergeResult where
  package_name : String
  content : String
  fingerprint : String
  warnings : List String
deriving Repr, DecidableEq

def MERGE_ALGORITHM_VERSION : String := "1.0.0+" ++ TEXT_GENERATOR_VERSION

/-- Mirrors `generate_fingerprint` (`src/lib.rs`): parse the content, regenerate
canonical text, hash it. -/
def generate_fingerprint (parse : String → Except String FileDescriptorProto)
    (content : String) : Except MergeError String :=
  match parse content with
  | .error e => .error (.fingerprintFailure e)
  | .ok d => .ok (sha256hexOfString (descriptor_to_proto d))

/-- Mirrors `BTreeSet<String>` insertion (sorted, duplicate-free). -/
def insertSet (a : String) : List String → List String
  | [] => [a]
  | b :: l =>
      if a == b then b :: l
      else if strLtB a b then a :: b :: l
      else b :: insertSet a l

/-- The `BTreeSet` of syntax strings of a group (absent defaulted to
`proto2`), as a sorted duplicate-free list. -/
def syntaxSet (files : List FileDescriptorProto) : List String :=
  files.foldl (fun s f => insertSet (f.syn.getD "proto2") s) []

/-- Mirrors `validate_syntax_consistency` (its `_warnings` parameter is vestigial
and never written; it is dropped here). -/
def validate_syntax_consistency (files : List FileDescriptorProto) :
    Except MergeError String :=
  let syntaxes := syntaxSet files
  if 1 < syntaxes.length then .error (.syntaxConflict syntaxes)
  else .ok (syntaxes.headD "proto2")

/-- Mirrors `dependency.get(idx as usize)` for an `i32` index. -/
def getIdx (l : List α) (i : Int) : Option α :=
  if 0 ≤ i then l.get? i.toNat else none

/-- Mirrors `merge_imports`: returns `(dependency, public_dependency, weak_dependency)`. -/
def merge_imports (files : List FileDescriptorProto) :
    List String × List Int × List Int :=
  let all := files.foldl (fun s f => f.dependency.foldl (fun s d => insertSet d s) s) []
  let pub := files.foldl (fun s f =>
    f.public_dependency.foldl (fun s i =>
      match getIdx f.dependency i with
      | some d => insertSet d s
      | none => s) s) []
  let wk := files.foldl (fun s f =>
    f.weak_dependency.foldl (fun s i =>
      match getIdx f.dependency i with
      | some d => insertSet d s
      | none => s) s) []
  (all,
   (enumFrom 0 all).filterMap (fun p =>
     if pub.contains p.2 then some (Int.ofNat p.1) else none),
   (enumFrom 0 all).filterMap (fun p =>
     if wk.contains p.2 then some (Int.ofNat p.1) else none))

/-- Mirrors `merge_file_options`: the first file's options are the base; later
files only produce advisory warnings on `java_package` / `go_package`
differences.  Returns `(merged options, warnings)`. -/
def merge_file_options (files : List FileDescriptorProto) :
    Option FileOptions × List String :=
  let base := files.head?.bind (fun f => f.options)
  let warnings := ((enumFrom 0 files).drop 1).foldl (fun ws p =>
    match p.2.options, base with
    | some opts, some mopts =>
        let ws :=
          if opts.java_package ≠ mopts.java_package ∧ opts.java_package.isSome then
            ws ++ ["File #" ++ toString p.1 ++
              ": java_package option conflict (using first occurrence)"]
          else ws
        if opts.go_package ≠ mopts.go_package ∧ opts.go_package.isSome then
          ws ++ ["File #" ++ toString p.1 ++
            ": go_package option conflict (using first occurrence)"]
        else ws
    | _, _ => ws) []
  (base, warnings)

/-- The duplicate check of `merge_messages` / `merge_enums` /
`merge_services`: scan the `(file index, name)` pairs in order against a
running name-to-first-file map. -/
def dupScan (kind : DeclKind) :
    List (Nat × String) → List (String × Nat) → Except MergeError Unit
  | [], _ => .ok ()
  | (i, n) :: rest, seen =>
      match seen.lookup n with
      | some j => .error (.duplicateSymbol kind n j i)
      | none => dupScan kind rest ((n, i) :: seen)

/-- The `(file index, declaration name)` pairs in scan order. -/
def indexedDeclNames (getDecls : FileDescriptorProto → List α) (nameOf : α → String)
    (files : List FileDescriptorProto) : List (Nat × String) :=
  (enumFrom 0 files).flatMap (fun p => (getDecls p.2).map (fun d => (p.1, nameOf d)))

/-- Mirrors `merge_messages`: duplicate check, then concatenate and sort by name. -/
def merge_messages (files : List FileDescriptorProto) :
    Except MergeError (List DescriptorProto) :=
  match dupScan .message
      (indexedDeclNames (fun f => f.message_type) DescriptorProto.nameD files) [] with
  | .error e => .error e
  | .ok _ =>
      .ok (sortByKey (fun a b => strLeB a.nameD b.nameD)
        (files.flatMap (fun f => f.message_type)))

/-- Mirrors `merge_enums`. -/
def merge_enums (files : List FileDescriptorProto) :
    Except MergeError (List EnumDescriptorProto) :=
  match dupScan .enum
      (indexedDeclNames (fun f => f.enum_type) EnumDescriptorProto.nameD files) [] with
  | .error e => .error e
  | .ok _ =>
      .ok (sortByKey (fun a b => strLeB a.nameD b.nameD)
        (files.flatMap (fun f => f.enum_type)))

/-- Mirrors `merge_services`. -/
def merge_services (files : List FileDescriptorProto) :
    Except MergeError (List ServiceDescriptorProto) :=
  match dupScan .service
      (indexedDeclNames (fun f => f.service) ServiceDescriptorProto.nameD files) [] with
  | .error e => .error e
  | .ok _ =>
      .ok (sortByKey (fun a b => strLeB a.nameD b.nameD)
        (files.flatMap (fun f => f.service)))

/-- The `(extendee, number)` comparator of `merge_extensions`
(`Option<String>` ordering: `None` before `Some`). -/
def extLeB (a b : FieldDescriptorProto) : Bool :=
  match a.extendee, b.extendee with
  | none, none => intLeB a.numberD b.numberD
  | none, some _ => true
  | some _, none => false
  | some x, some y => if x == y then intLeB a.numberD b.numberD else strLtB x y

/-- Mirrors `merge_extensions`: concatenate, sort by `(extendee, number)`. -/
def merge_extensions (files : List FileDescriptorProto) : List FieldDescriptorProto :=
  sortByKey extLeB (files.flatMap (fun f => f.extension))

/-- Mirrors `merge_package_group` up to (and excluding) text generation: the
unified descriptor plus the accumulated warnings. -/
def build_merged (pkg : String) (files : List FileDescriptorProto) :
    Except MergeError (FileDescriptorProto × List String) :=
  match validate_syntax_consistency files with
  | .error e => .error e
  | .ok syn =>
    let imps := merge_imports files
    let fo := merge_file_options files
    match merge_messages files with
    | .error e => .error e
    | .ok msgs =>
      match merge_enums files with
      | .error e => .error e
      | .ok enums =>
        match merge_services files with
        | .error e => .error e
        | .ok svcs =>
            .ok ({ syn := some syn,
                   package := if pkg == "" then none else some pkg,
                   dependency := imps.1,
                   public_dependency := imps.2.1,
                   weak_dependency := imps.2.2,
                   message_type := msgs,
                   enum_type := enums,
                   service := svcs,
                   extension := merge_extensions files,
                   options := fo.1 }, fo.2)

/-- Mirrors `merge_package_group`. -/
def merge_package_group (parse : String → Except String FileDescriptorProto)
    (pkg : String) (files : List FileDescriptorProto) :
    Except MergeError MergeResult :=
  match build_merged pkg files with
  | .error e => .error e
  | .ok dw =>
      let content := format_file defaultTGOptions dw.1
      match generate_fingerprint parse content with
      | .error e => .error e
      | .ok fp => .ok ⟨pkg, content, fp, dw.2⟩

/-- Mirrors `BTreeMap` grouping step of `group_by_package` (sorted keys; input
order preserved within a group). -/
def insertGrouped (p : String) (f : FileDescriptorProto) :
    List (String × List FileDescriptorProto) → List (String × List FileDescriptorProto)
  | [] => [(p, [f])]
  | (q, g) :: rest =>
      if p == q then (q, g ++ [f]) :: rest
      else if strLtB p q then (p, [f]) :: (q, g) :: rest
      else (q, g) :: insertGrouped p f rest

/-- Mirrors `group_by_package`. -/
def group_by_package (files : List FileDescriptorProto) :
    List (String × List FileDescriptorProto) :=
  files.foldl (fun m f => insertGrouped (f.package.getD "") f m) []

/-- Mirrors `parse_all_files` (wraps a parse failure with the file index). -/
def parse_all_files (parse : String → Except String FileDescriptorProto) :
    Nat → List String → Except MergeError (List FileDescriptorProto)
  | _, [] => .ok []
  | idx, s :: rest =>
      match parse s with
      | .error e => .error (.parseFailure idx e)
      | .ok d =>
          match parse_all_files parse (idx + 1) rest with
          | .error e => .error e
          | .ok ds => .ok (d :: ds)

/-- The loop of step 3 of `merge_by_package`: merge every package group
in `BTreeMap` iteration order. -/
def mergeGroups (parse : String → Except String FileDescriptorProto) :
    List (String × List FileDescriptorProto) → Except MergeError (List MergeResult)
  | [] => .ok []
  | (pkg, g) :: rest =>
      match merge_package_group parse pkg g with
      | .error e => .error e
      | .ok r =>
          match mergeGroups parse rest with
          | .error e => .error e
          | .ok rs => .ok (r :: rs)

/-- Mirrors `merge_by_package`. -/
def merge_by_package (parse : String → Except String FileDescriptorProto)
    (files : List String) : Except MergeError (List MergeResult) :=
  if files.isEmpty then .ok []
  else
    match parse_all_files parse 0 files with
    | .error e => .error e
    | .ok parsed =>
        match mergeGroups parse (group_by_package parsed) with
        | .error e => .error e
        | .ok results =>
            .ok (sortByKey (fun a b => strLeB a.package_name b.package_name) results)


/-! ## Spec-side definitions and concrete instances used by the claims -/

/-- Spec side of C9, message ranges, from the spec sentence: half-open
`[start, end)`; a single-element range prints as `start`, otherwise as
`start to end-1`, and `end-1 == 536870911` collapses to `start to max`. -/
def specMsgRange (s e : Int) : String :=
  if e = s + 1 then toString s
  else if e - 1 = 536870911 then toString s ++ " to max"
  else toString s ++ " to " ++ toString (e - 1)

/-- Spec side of C9, enum ranges, from the spec sentence: inclusive
`[start, end]`; a single-element range prints as `start`, an
`end == 536870911` collapses to `to max`. -/
def specEnumRange (s e : Int) : String :=
  if e = s then toString s
  else if e = 536870911 then toString s ++ " to max"
  else toString s ++ " to " ++ toString e

/-- The top-level declaration names of one file for a given kind. -/
def kindNames (k : DeclKind) (f : FileDescriptorProto) : List String :=
  match k with
  | .message => f.message_type.map DescriptorProto.nameD
  | .enum => f.enum_type.map EnumDescriptorProto.nameD
  | .service => f.service.map ServiceDescriptorProto.nameD

/-- All top-level declaration names of a kind across a package group. -/
def allKindNames (k : DeclKind) (files : List FileDescriptorProto) : List String :=
  files.flatMap (kindNames k)

/-- File `i` of the group declares a top-level symbol `n` of kind `k`. -/
def declaresKind (k : DeclKind) (files : List FileDescriptorProto)
    (n : String) (i : Nat) : Prop :=
  ∃ f, files.get? i = some f ∧ n ∈ kindNames k f

/-- The `(file index, name)` pairs `merge_messages` & co. scan, per kind. -/
def kindIndexedNames (k : DeclKind) (files : List FileDescriptorProto) :
    List (Nat × String) :=
  (enumFrom 0 files).flatMap (fun p => (kindNames k p.2).map (fun n => (p.1, n)))

/-- The `.ok` payload of an `Except`, with a fallback. -/
def exceptOkD (e : Except ε α) (d : α) : α :=
  match e with
  | .ok a => a
  | .error _ => d

/-! ### Concrete instances for witnesses and counterexamples -/

def msgW1 : DescriptorProto :=
  .mk (some "User")
    [{ name := some "name", number := some 1, label := some 1, type_ := some 9 }]
    [] [] [] [] [] [] [] none

def fdW1 : FileDescriptorProto :=
  { syn := some "proto3", package := some "test", message_type := [msgW1] }

/-- A parser adapter instance that returns `fdW1` for every input; on the
canonical text of `fdW1` it satisfies the round-trip property. -/
def parseW1 (_ : String) : Except String FileDescriptorProto := .ok fdW1

def mrW1 : MergeResult :=
  exceptOkD (merge_package_group parseW1 "test" [fdW1]) ⟨"", "", "", []⟩

def fdP2 : FileDescriptorProto := { syn := some "proto2" }

def fdP3 : FileDescriptorProto := { syn := some "proto3" }

def fdU1 : FileDescriptorProto :=
  { syn := some "proto3",
    message_type := [.mk (some "User") [] [] [] [] [] [] [] [] none] }

def fdU2 : FileDescriptorProto :=
  { syn := some "proto3",
    message_type := [.mk (some "User") [] [] [] [] [] [] [] [] none] }

/-- A file whose only service shares the name `User` with `fdU1`'s message. -/
def fdUService : FileDescriptorProto :=
  { syn := some "proto3", service := [{ name := some "User" }] }

def fdA5 : FileDescriptorProto := { syn := some "proto3", package := some "a" }

def fdB5 : FileDescriptorProto := { syn := some "proto3", package := some "b" }

def parseW5 (s : String) : Except String FileDescriptorProto :=
  .ok (if s = "fa" then fdA5 else if s = "fb" then fdB5 else {})

def mapEntryW : DescriptorProto :=
  .mk (some "MEntry")
    [{ name := some "key", number := some 1, label := some 1, type_ := some 9 },
     { name := some "value", number := some 2, label := some 1, type_ := some 5 }]
    [] [] [] [] [] [] [] (some { map_entry := some true })

def mapFieldW : FieldDescriptorProto :=
  { name := some "m", number := some 1, label := some 3, type_ := some 11,
    type_name := some ".test.M.MEntry" }

def mapMsgW : DescriptorProto :=
  .mk (some "M") [mapFieldW] [mapEntryW] [] [] [] [] [] [] none

def fdW6 : FileDescriptorProto :=
  { syn := some "proto3", package := some "test", message_type := [mapMsgW] }

def fieldW7 : FieldDescriptorProto :=
  { name := some "a", number := some 1, label := some 1, type_ := some 9,
    oneof_index := some 0 }

def oneofW7 : OneofDescriptorProto := { name := some "choice" }

def msgW7 : DescriptorProto :=
  .mk (some "O") [fieldW7] [] [] [] [] [oneofW7] [] [] none

def fdW7 : FileDescriptorProto := { syn := some "proto2", message_type := [msgW7] }

def fdW7b : FileDescriptorProto := { syn := some "proto3", message_type := [msgW7] }

def mthW8 : MethodDescriptorProto :=
  { name := some "Ping", input_type := some ".test.Req",
    output_type := some ".test.Resp", options := some { deprecated := some true } }

def mthW8p : MethodDescriptorProto :=
  { name := some "Pong", input_type := some ".test.Req",
    output_type := some ".test.Resp" }

def fdW10a : FileDescriptorProto := { syn := some "proto3", package := some "p" }

def fdW10b : FileDescriptorProto :=
  { syn := some "proto3", package := some "p",
    options := some { java_package := some "com.example.x",
                      go_package := some "example.com/x" } }

def kfW6 : FieldDescriptorProto :=
  { name := some "key", number := some 1, label := some 1, type_ := some 9 }

def vfW6 : FieldDescriptorProto :=
  { name := some "value", number := some 2, label := some 1, type_ := some 5 }

/-! ## Theorems

First the order bridges (the boolean comparators above against the
`LinearOrder` on `String` / `Int`) and the correctness of the stable
insertion sort; then the claims. -/

theorem char_lt_iff (a b : Char) : a < b ↔ a.toNat < b.toNat := by
  rw [Char.lt_def]; rfl

theorem char_toNat_inj (a b : Char) (h : a.toNat = b.toNat) : a = b := by
  apply Char.eq_of_val_eq
  apply UInt32.eq_of_val_eq
  apply Fin.eq_of_val_eq
  exact h

theorem strLtList_iff :
    ∀ as bs : List Char, strLtList as bs = true ↔ List.Lex (· < ·) as bs
  | [], [] => by
      simp only [strLtList, Bool.false_eq_true, false_iff]
      exact fun h => by cases h
  | [], _ :: _ => by
      simp only [strLtList, true_iff]
      exact List.Lex.nil
  | _ :: _, [] => by
      simp only [strLtList, Bool.false_eq_true, false_iff]
      exact fun h => by cases h
  | a :: as, b :: bs => by
      simp only [strLtList]
      by_cases hab : a.toNat < b.toNat
      · simp only [hab, if_true, true_iff]
        exact List.Lex.rel ((char_lt_iff a b).mpr hab)
      · by_cases hba : b.toNat < a.toNat
        · simp only [hab, hba, if_false, if_true, Bool.false_eq_true, false_iff]
          intro h
          cases h with
          | cons _ => exact Nat.lt_irrefl _ hba
          | rel h => exact hab ((char_lt_iff a b).mp h)
        · have heq : a = b := char_toNat_inj a b (by omega)
          subst heq
          simp only [hab, hba, if_false]
          rw [strLtList_iff as bs]
          constructor
          · exact fun h => List.Lex.cons h
          · intro h
            cases h with
            | cons h => exact h
            | rel h => exact absurd ((char_lt_iff a a).mp h) (Nat.lt_irrefl _)

theorem strLtB_iff (a b : String) : strLtB a b = true ↔ a < b := by
  rw [String.lt_iff_toList_lt]
  exact strLtList_iff a.data b.data

theorem strLeB_iff (a b : String) : strLeB a b = true ↔ a ≤ b := by
  simp only [strLeB, Bool.not_eq_true']
  rw [← not_lt]
  constructor
  · intro h hba
    exact absurd ((strLtB_iff b a).mpr hba) (by simp [h])
  · intro h
    by_contra hb
    exact h ((strLtB_iff b a).mp (by simpa using hb))

theorem strLeB_total (a b : String) : strLeB a b = true ∨ strLeB b a = true := by
  rw [strLeB_iff, strLeB_iff]; exact le_total a b

theorem strLeB_trans (a b c : String) :
    strLeB a b = true → strLeB b c = true → strLeB a c = true := by
  rw [strLeB_iff, strLeB_iff, strLeB_iff]; exact le_trans

theorem intLeB_iff (a b : Int) : intLeB a b = true ↔ a ≤ b := by
  simp [intLeB]

theorem intLeB_total (a b : Int) : intLeB a b = true ∨ intLeB b a = true := by
  rw [intLeB_iff, intLeB_iff]; exact le_total a b

theorem intLeB_trans (a b c : Int) :
    intLeB a b = true → intLeB b c = true → intLeB a c = true := by
  rw [intLeB_iff, intLeB_iff, intLeB_iff]; exact le_trans
theorem mem_insertSorted (le : α → α → Bool) (a : α) (l : List α) (z : α) :
    z ∈ insertSorted le a l ↔ z = a ∨ z ∈ l := by
  induction l with
  | nil => simp [insertSorted]
  | cons b l ih =>
    by_cases h : le a b = true
    · simp [insertSorted, h]
    · simp only [insertSorted, h, Bool.false_eq_true, if_false, List.mem_cons, ih]
      tauto

theorem perm_insertSorted (le : α → α → Bool) (a : α) (l : List α) :
    List.Perm (insertSorted le a l) (a :: l) := by
  induction l with
  | nil => simp [insertSorted]
  | cons b l ih =>
    by_cases h : le a b = true
    · simp [insertSorted, h]
    · simp only [insertSorted, h, Bool.false_eq_true, if_false]
      exact (ih.cons b).trans (List.Perm.swap a b l)

theorem perm_sortByKey (le : α → α → Bool) (l : List α) :
    List.Perm (sortByKey le l) l := by
  induction l with
  | nil => simp [sortByKey]
  | cons a l ih =>
    exact (perm_insertSorted le a (sortByKey le l)).trans (ih.cons a)

theorem sortedBy_insertSorted (le : α → α → Bool)
    (htot : ∀ a b, le a b = true ∨ le b a = true)
    (htrans : ∀ a b c, le a b = true → le b c = true → le a c = true)
    (a : α) (l : List α) (hl : SortedBy le l) :
    SortedBy le (insertSorted le a l) := by
  induction l with
  | nil => simp [insertSorted, SortedBy]
  | cons b l ih =>
    rcases List.pairwise_cons.mp hl with ⟨hb, hl'⟩
    by_cases h : le a b = true
    · simp only [insertSorted, h, if_true]
      refine List.pairwise_cons.mpr ⟨?_, hl⟩
      intro x hx
      rcases List.mem_cons.mp hx with hx | hx
      · exact hx ▸ h
      · exact htrans a b x h (hb x hx)
    · have hba : le b a = true := by
        rcases htot a b with h' | h'
        · exact absurd h' h
        · exact h'
      simp only [insertSorted, h, Bool.false_eq_true, if_false]
      refine List.pairwise_cons.mpr ⟨?_, ih hl'⟩
      intro x hx
      rcases (mem_insertSorted le a l x).mp hx with hx | hx
      · exact hx ▸ hba
      · exact hb x hx

theorem sortedBy_sortByKey (le : α → α → Bool)
    (htot : ∀ a b, le a b = true ∨ le b a = true)
    (htrans : ∀ a b c, le a b = true → le b c = true → le a c = true)
    (l : List α) : SortedBy le (sortByKey le l) := by
  induction l with
  | nil => exact List.Pairwise.nil
  | cons a l ih => exact sortedBy_insertSorted le htot htrans a (sortByKey le l) ih

/-- Sorting by a `String` key yields a list pairwise ordered by that key. -/
theorem pairwise_key_le_sortByKey_str (key : α → String) (l : List α) :
    List.Pairwise (fun a b => key a ≤ key b)
      (sortByKey (fun a b => strLeB (key a) (key b)) l) := by
  have h := sortedBy_sortByKey (fun a b => strLeB (key a) (key b))
    (fun a b => strLeB_total (key a) (key b))
    (fun a b c hab hbc => strLeB_trans (key a) (key b) (key c) hab hbc) l
  exact h.imp (fun hab => (strLeB_iff _ _).mp hab)

/-- Sorting by an `Int` key yields a list pairwise ordered by that key. -/
theorem pairwise_key_le_sortByKey_int (key : α → Int) (l : List α) :
    List.Pairwise (fun a b => key a ≤ key b)
      (sortByKey (fun a b => intLeB (key a) (key b)) l) := by
  have h := sortedBy_sortByKey (fun a b => intLeB (key a) (key b))
    (fun a b => intLeB_total (key a) (key b))
    (fun a b c hab hbc => intLeB_trans (key a) (key b) (key c) hab hbc) l
  exact h.imp (fun hab => (intLeB_iff _ _).mp hab)

/-- C2: for every `FileDescriptor`, in the text produced by the generator
with default options, top-level messages, enums and services appear in
ascending name order (these are exactly the lists `write_messages`,
`write_enums`, `write_services` iterate), the regular fields within each
emitted message appear in ascending field-number order (the list
`write_message` iterates), and the values within each emitted enum appear
in ascending number order (the list `write_enum` iterates). -/
theorem C2_generator_sorted_siblings :
    (∀ file : FileDescriptorProto,
       List.Pairwise (fun a b => a.nameD ≤ b.nameD) (sortedMessages defaultTGOptions file) ∧
       List.Pairwise (fun a b => a.nameD ≤ b.nameD) (sortedEnums defaultTGOptions file) ∧
       List.Pairwise (fun a b => a.nameD ≤ b.nameD) (sortedServices defaultTGOptions file)) ∧
    (∀ m : DescriptorProto,
       List.Pairwise (fun a b => a.numberD ≤ b.numberD) (sortedRegularFields m)) ∧
    (∀ e : EnumDescriptorProto,
       List.Pairwise (fun a b => a.numberD ≤ b.numberD) (sortedEnumValues e)) := by
  refine ⟨fun file => ⟨?_, ?_, ?_⟩, fun m => ?_, fun e => ?_⟩
  · simpa [sortedMessages, defaultTGOptions] using
      pairwise_key_le_sortByKey_str DescriptorProto.nameD file.message_type
  · simpa [sortedEnums, defaultTGOptions] using
      pairwise_key_le_sortByKey_str EnumDescriptorProto.nameD file.enum_type
  · simpa [sortedServices, defaultTGOptions] using
      pairwise_key_le_sortByKey_str ServiceDescriptorProto.nameD file.service
  · exact pairwise_key_le_sortByKey_int FieldDescriptorProto.numberD
      (m.field.filter isRegularField)
  · exact pairwise_key_le_sortByKey_int EnumValueDescriptorProto.numberD e.value

/-- C9: a message reserved range `[start, end)` prints as `start` when
`end = start+1`, else as `start to end-1`, collapsing to `start to max`
when `end-1 = 536870911`; an enum reserved range `[start, end]` prints as
`start` when `end = start`, else as `start to end`, collapsing to
`start to max` when `end = 536870911`.  (`msgRangeText` /
`enumRangeText` are the per-range fragments that `write_reserved` /
`write_enum_reserved` join with `", "`; the spec-side functions are
transcribed from the spec's sentences.) -/
theorem C9_reserved_range_rendering :
    (∀ r : ReservedRange, msgRangeText r = specMsgRange r.startD r.endD) ∧
    (∀ r : EnumReservedRange, enumRangeText r = specEnumRange r.startD r.endD) := by
  constructor
  · intro r
    simp only [msgRangeText, specMsgRange, beq_iff_eq]
    split_ifs <;> first | rfl | omega
  · intro r
    simp only [enumRangeText, specEnumRange, beq_iff_eq]
    split_ifs <;> first | rfl | omega

/-- C8 counterexample: for the deprecated method `mthW8` the generator
emits the `option deprecated = true` block AND a trailing `;` (the `;`
of `write_method` is unconditional), so the rendered text ends in `};`
rather than replacing the `;` with the block as the claim states. -/
theorem C8_counterexample :
    write_method defaultTGOptions 1 mthW8 =
      "  rpc Ping(test.Req) returns (test.Resp) \x7b\n    option deprecated = true;\n  \x7d;\n" ∧
    write_method defaultTGOptions 1 mthW8 ≠
      "  rpc Ping(test.Req) returns (test.Resp) \x7b\n    option deprecated = true;\n  \x7d\n" := by
  constructor
  · decide
  · decide

/-- C8 amended: a method with `options.deprecated = true` renders as the
head followed by a `{ option deprecated = true; }` block followed by the
trailing `;` (i.e. `};`); a method without the deprecated option renders
as the head followed by `;` alone. -/
theorem C8_deprecated_method_rendering (opts : TextGeneratorOptions) (ind : Nat)
    (mth : MethodDescriptorProto) :
    (methodDeprecated mth = true →
      write_method opts ind mth =
        methodHead opts ind mth ++ " \x7b\n" ++ indentStr opts (ind + 1) ++
          "option deprecated = true;\n" ++ indentStr opts ind ++ "\x7d" ++ ";\n") ∧
    (methodDeprecated mth = false →
      write_method opts ind mth = methodHead opts ind mth ++ ";\n") := by
  constructor
  · intro hdep
    rcases homth : mth.options with _ | o
    · rw [methodDeprecated, homth] at hdep
      simp at hdep
    · rcases ho : o.deprecated with _ | b
      · rw [methodDeprecated, homth] at hdep
        simp [Option.bind, ho] at hdep
      · cases b
        · rw [methodDeprecated, homth] at hdep
          simp [Option.bind, ho] at hdep
        · simp only [write_method, homth, ho, String.append_assoc]
  · intro hdep
    rcases homth : mth.options with _ | o
    · simp only [write_method, homth, String.append_empty, String.empty_append]
    · rcases ho : o.deprecated with _ | b
      · simp only [write_method, homth, ho, String.append_assoc, String.append_empty,
          String.empty_append]
      · cases b
        · simp only [write_method, homth, ho, String.append_assoc, String.append_empty,
            String.empty_append]
        · rw [methodDeprecated, homth] at hdep
          simp [Option.bind, ho] at hdep

/-- Witness for the amended C8 theorem at the two concrete methods. -/
theorem C8_deprecated_method_rendering_witness :
    write_method defaultTGOptions 1 mthW8 =
      methodHead defaultTGOptions 1 mthW8 ++ " \x7b\n" ++ indentStr defaultTGOptions 2 ++
        "option deprecated = true;\n" ++ indentStr defaultTGOptions 1 ++ "\x7d" ++ ";\n" ∧
    write_method defaultTGOptions 1 mthW8p = methodHead defaultTGOptions 1 mthW8p ++ ";\n" :=
  ⟨(C8_deprecated_method_rendering defaultTGOptions 1 mthW8).1 (by decide),
   (C8_deprecated_method_rendering defaultTGOptions 1 mthW8p).2 (by decide)⟩

theorem foldl_fixed {g : β → α → β} (hg : ∀ ws a, g ws a = ws) :
    ∀ (l : List α) (ws : β), l.foldl g ws = ws := by
  intro l
  induction l with
  | nil => intro ws; rfl
  | cons a l ih => intro ws; rw [List.foldl_cons, hg ws a]; exact ih ws

/-- C10: when the first file of a package group carries no options record,
the merged descriptor's file options stay absent and no option-conflict
warning is ever emitted, whatever `java_package` / `go_package` later
files set (the conflict check requires the merged base to be present). -/
theorem C10_no_base_options_no_warnings (pkg : String)
    (files : List FileDescriptorProto) (f0 : FileDescriptorProto)
    (h0 : files.head? = some f0) (hopt : f0.options = none) :
    merge_file_options files = (none, []) ∧
    ∀ d w, build_merged pkg files = .ok (d, w) → d.options = none ∧ w = [] := by
  have hbase : files.head?.bind (fun f => f.options) = none := by
    rw [h0]
    simp [hopt]
  have hmfo : merge_file_options files = (none, []) := by
    rw [merge_file_options, hbase]
    rw [foldl_fixed]
    intro ws p
    rcases p.2.options with _ | o <;> rfl
  refine ⟨hmfo, ?_⟩
  intro d w hok
  rw [build_merged] at hok
  rcases hv : validate_syntax_consistency files with e | syn <;> rw [hv] at hok
  · simp at hok
  rcases hm : merge_messages files with e | msgs <;> rw [hm] at hok
  · simp at hok
  rcases he : merge_enums files with e | enums <;> rw [he] at hok
  · simp at hok
  rcases hs : merge_services files with e | svcs <;> rw [hs] at hok
  · simp at hok
  rw [hmfo] at hok
  simp only [Except.ok.injEq, Prod.mk.injEq] at hok
  rcases hok with ⟨hd, hw⟩
  constructor
  · rw [← hd]
  · exact hw.symm

/-- C10 witness: two files in one group, the first without options, the
second setting both `java_package` and `go_package`. -/
theorem C10_no_base_options_no_warnings_witness :
    merge_file_options [fdW10a, fdW10b] = (none, []) ∧
    (exceptOkD (build_merged "p" [fdW10a, fdW10b]) ({}, [])).1.options = none ∧
    (exceptOkD (build_merged "p" [fdW10a, fdW10b]) ({}, [])).2 = [] := by
  have h := C10_no_base_options_no_warnings "p" [fdW10a, fdW10b] fdW10a rfl rfl
  have hok : build_merged "p" [fdW10a, fdW10b] =
      .ok ((exceptOkD (build_merged "p" [fdW10a, fdW10b]) ({}, [])).1,
           (exceptOkD (build_merged "p" [fdW10a, fdW10b]) ({}, [])).2) := by
    rfl
  have h2 := h.2 _ _ hok
  exact ⟨h.1, h2.1, h2.2⟩

theorem insertSet_ne_nil (a : String) : ∀ l : List String, insertSet a l ≠ []
  | [] => by simp [insertSet]
  | b :: l => by
      rw [insertSet]
      split_ifs <;> simp

theorem mem_insertSet (a : String) : ∀ (l : List String) (x : String),
    x ∈ insertSet a l ↔ x = a ∨ x ∈ l
  | [], x => by simp [insertSet]
  | b :: l, x => by
      rw [insertSet]
      split_ifs with h1 h2
      · rw [beq_iff_eq] at h1
        subst h1
        simp only [List.mem_cons]
        tauto
      · simp only [List.mem_cons]
      · simp only [List.mem_cons, mem_insertSet a l x]
        tauto

theorem mem_foldl_insertSet (key : α → String) :
    ∀ (l : List α) (init : List String) (x : String),
      x ∈ l.foldl (fun s f => insertSet (key f) s) init ↔ x ∈ init ∨ x ∈ l.map key
  | [], init, x => by simp
  | f :: l, init, x => by
      rw [List.foldl_cons, mem_foldl_insertSet key l (insertSet (key f) init) x,
        mem_insertSet]
      simp only [List.map_cons, List.mem_cons]
      tauto

theorem foldl_insertSet_ne_nil (key : α → String) :
    ∀ (l : List α) (init : List String), (init ≠ [] ∨ l ≠ []) →
      l.foldl (fun s f => insertSet (key f) s) init ≠ []
  | [], init, h => by
      rcases h with h | h
      · exact h
      · exact absurd rfl h
  | f :: l, init, _ => by
      rw [List.foldl_cons]
      exact foldl_insertSet_ne_nil key l _ (Or.inl (insertSet_ne_nil _ _))

theorem mem_syntaxSet (files : List FileDescriptorProto) (x : String) :
    x ∈ syntaxSet files ↔ x ∈ files.map (fun f => f.syn.getD "proto2") := by
  rw [syntaxSet, mem_foldl_insertSet (fun f => f.syn.getD "proto2") files [] x]
  simp

theorem syntaxSet_ne_nil (files : List FileDescriptorProto) (h : files ≠ []) :
    syntaxSet files ≠ [] :=
  foldl_insertSet_ne_nil _ files [] (Or.inr h)

theorem dupScan_error_shape (k : DeclKind) :
    ∀ (pairs : List (Nat × String)) (seen : List (String × Nat)) (e : MergeError),
      dupScan k pairs seen = .error e → ∃ n i j, e = .duplicateSymbol k n i j
  | [], _, _, h => by simp [dupScan] at h
  | (i, n) :: rest, seen, e, h => by
      rw [dupScan] at h
      rcases hl : seen.lookup n with _ | j <;> rw [hl] at h
      · exact dupScan_error_shape k rest _ e h
      · injection h with h
        exact ⟨n, j, i, h.symm⟩

theorem merge_messages_error_shape (files : List FileDescriptorProto) (e : MergeError)
    (h : merge_messages files = .error e) : ∃ n i j, e = .duplicateSymbol .message n i j := by
  rw [merge_messages] at h
  rcases hd : dupScan .message
      (indexedDeclNames (fun f => f.message_type) DescriptorProto.nameD files) [] with e' | u <;>
    rw [hd] at h
  · injection h with h
    exact h ▸ dupScan_error_shape .message _ _ e' hd
  · simp at h

theorem merge_enums_error_shape (files : List FileDescriptorProto) (e : MergeError)
    (h : merge_enums files = .error e) : ∃ n i j, e = .duplicateSymbol .enum n i j := by
  rw [merge_enums] at h
  rcases hd : dupScan .enum
      (indexedDeclNames (fun f => f.enum_type) EnumDescriptorProto.nameD files) [] with e' | u <;>
    rw [hd] at h
  · injection h with h
    exact h ▸ dupScan_error_shape .enum _ _ e' hd
  · simp at h

theorem merge_services_error_shape (files : List FileDescriptorProto) (e : MergeError)
    (h : merge_services files = .error e) : ∃ n i j, e = .duplicateSymbol .service n i j := by
  rw [merge_services] at h
  rcases hd : dupScan .service
      (indexedDeclNames (fun f => f.service) ServiceDescriptorProto.nameD files) [] with e' | u <;>
    rw [hd] at h
  · injection h with h
    exact h ▸ dupScan_error_shape .service _ _ e' hd
  · simp at h

theorem build_error_syntaxConflict (pkg : String) (files : List FileDescriptorProto)
    (l : List String) (h : build_merged pkg files = .error (.syntaxConflict l)) :
    validate_syntax_consistency files = .error (.syntaxConflict l) := by
  rw [build_merged] at h
  rcases hv : validate_syntax_consistency files with e | syn <;> rw [hv] at h
  · injection h with h
    rw [← h]
  · rcases hm : merge_messages files with e | msgs <;> rw [hm] at h
    · obtain ⟨n, i, j, he⟩ := merge_messages_error_shape files e hm
      rw [he] at h
      injection h with h
      exact absurd h (by simp)
    rcases hen : merge_enums files with e | enums <;> rw [hen] at h
    · obtain ⟨n, i, j, he⟩ := merge_enums_error_shape files e hen
      rw [he] at h
      injection h with h
      exact absurd h (by simp)
    rcases hs : merge_services files with e | svcs <;> rw [hs] at h
    · obtain ⟨n, i, j, he⟩ := merge_services_error_shape files e hs
      rw [he] at h
      injection h with h
      exact absurd h (by simp)
    · simp at h

/-- C3: merging a package group fails with a syntax-conflict error naming
the observed versions iff the set of syntax strings across the group's
files (absent defaulted to `proto2`) has more than one member; otherwise
the unified descriptor's syntax is the single member of that set. -/
theorem C3_syntax_conflict_iff (pkg : String) (files : List FileDescriptorProto) :
    ((∃ l, build_merged pkg files = .error (.syntaxConflict l)) ↔
      1 < (syntaxSet files).length) ∧
    (∀ l, build_merged pkg files = .error (.syntaxConflict l) →
      l = syntaxSet files ∧
        ∀ s, s ∈ l ↔ s ∈ files.map (fun f => f.syn.getD "proto2")) ∧
    (∀ d w, build_merged pkg files = .ok (d, w) →
      ∃ s, d.syn = some s ∧ (files ≠ [] → syntaxSet files = [s])) := by
  have hval_err : 1 < (syntaxSet files).length →
      validate_syntax_consistency files = .error (.syntaxConflict (syntaxSet files)) := by
    intro h
    rw [validate_syntax_consistency]
    simp [h]
  have hval_ok : ¬1 < (syntaxSet files).length →
      validate_syntax_consistency files = .ok ((syntaxSet files).headD "proto2") := by
    intro h
    rw [validate_syntax_consistency]
    simp [h]
  refine ⟨⟨?_, ?_⟩, ?_, ?_⟩
  · rintro ⟨l, hl⟩
    have h2 := build_error_syntaxConflict pkg files l hl
    by_contra hlen
    rw [hval_ok hlen] at h2
    exact absurd h2 (by simp)
  · intro h
    refine ⟨syntaxSet files, ?_⟩
    rw [build_merged, hval_err h]
  · intro l hl
    have h2 := build_error_syntaxConflict pkg files l hl
    by_cases hlen : 1 < (syntaxSet files).length
    · rw [hval_err hlen] at h2
      injection h2 with h2
      injection h2 with h2
      exact ⟨h2.symm, fun s => h2 ▸ mem_syntaxSet files s⟩
    · rw [hval_ok hlen] at h2
      exact absurd h2 (by simp)
  · intro d w hok
    rw [build_merged] at hok
    rcases hv : validate_syntax_consistency files with e | syn <;> rw [hv] at hok
    · simp at hok
    rcases hm : merge_messages files with e | msgs <;> rw [hm] at hok
    · simp at hok
    rcases hen : merge_enums files with e | enums <;> rw [hen] at hok
    · simp at hok
    rcases hs : merge_services files with e | svcs <;> rw [hs] at hok
    · simp at hok
    simp only [Except.ok.injEq, Prod.mk.injEq] at hok
    have hdsyn : d.syn = some syn := by
      rw [← hok.1]
    by_cases hlen : 1 < (syntaxSet files).length
    · rw [hval_err hlen] at hv
      exact absurd hv (by simp)
    · rw [hval_ok hlen] at hv
      injection hv with hv
      refine ⟨syn, hdsyn, fun hne => ?_⟩
      have hnn := syntaxSet_ne_nil files hne
      rcases hss : syntaxSet files with _ | ⟨x, _ | ⟨y, rest⟩⟩
      · exact absurd hss hnn
      · rw [hss] at hv
        rw [← hv]
        rfl
      · rw [hss] at hlen
        exact absurd (by simp) hlen

/-- C3 witness: a `proto2`/`proto3` group trips the conflict branch with
the observed set as payload; a consistent group merges with the single
observed syntax. -/
theorem C3_syntax_conflict_iff_witness :
    ["proto2", "proto3"] = syntaxSet [fdP2, fdP3] ∧
    (exceptOkD (build_merged "u" [fdP3]) ({}, [])).1.syn = some "proto3" := by
  constructor
  · exact ((C3_syntax_conflict_iff "t" [fdP2, fdP3]).2.1 ["proto2", "proto3"] (by rfl)).1
  · have hok : build_merged "u" [fdP3] =
        .ok ((exceptOkD (build_merged "u" [fdP3]) ({}, [])).1,
             (exceptOkD (build_merged "u" [fdP3]) ({}, [])).2) := by
      rfl
    obtain ⟨s, hs, hset⟩ := (C3_syntax_conflict_iff "u" [fdP3]).2.2 _ _ hok
    have h3 := hset (List.cons_ne_nil _ _)
    have h4 : ["proto3"] = [s] := by
      rw [← h3]
      exact rfl
    have h5 : "proto3" = s := by
      injection h4
    rw [hs, ← h5]

theorem lookup_mem : ∀ (seen : List (String × Nat)) (n : String) (j : Nat),
    seen.lookup n = some j → (n, j) ∈ seen
  | [], n, j, h => by simp [List.lookup] at h
  | (a, b) :: seen, n, j, h => by
      rw [List.lookup_cons] at h
      rcases hab : n == a with _ | _ <;> rw [hab] at h
      · exact List.mem_cons_of_mem _ (lookup_mem seen n j h)
      · injection h with h
        rw [beq_iff_eq] at hab
        subst hab
        subst h
        exact List.mem_cons_self _ _

theorem lookup_none_not_mem : ∀ (seen : List (String × Nat)) (n : String),
    seen.lookup n = none → ∀ j, (n, j) ∉ seen
  | [], _, _, _ => by simp
  | (a, b) :: seen, n, h, j => by
      rw [List.lookup_cons] at h
      rcases hab : n == a with _ | _ <;> rw [hab] at h
      · intro hmem
        rcases List.mem_cons.mp hmem with heq | hmem'
        · rw [Prod.mk.injEq] at heq
          rw [heq.1] at hab
          simp at hab
        · exact lookup_none_not_mem seen n h j hmem'
      · exact absurd h (by simp)

theorem dupScan_ok_of_nodup (k : DeclKind) :
    ∀ (pairs : List (Nat × String)) (seen : List (String × Nat)),
      (pairs.map Prod.snd).Nodup → (∀ p ∈ pairs, seen.lookup p.2 = none) →
      dupScan k pairs seen = .ok ()
  | [], _, _, _ => rfl
  | (i, n) :: rest, seen, hnd, hseen => by
      rw [dupScan, hseen (i, n) (List.mem_cons_self _ _)]
      simp only [List.map_cons, List.nodup_cons] at hnd
      apply dupScan_ok_of_nodup k rest ((n, i) :: seen) hnd.2
      intro p hp
      rw [List.lookup_cons]
      have hpn : p.2 ≠ n := by
        intro hpn
        exact hnd.1 (hpn ▸ List.mem_map_of_mem Prod.snd hp)
      have : (p.2 == n) = false := by simp [hpn]
      rw [this]
      exact hseen p (List.mem_cons_of_mem _ hp)

theorem dupScan_ok_nodup (k : DeclKind) :
    ∀ (pairs : List (Nat × String)) (seen : List (String × Nat)),
      dupScan k pairs seen = .ok () →
      (∀ n j, (n, j) ∈ seen → n ∉ pairs.map Prod.snd) ∧ (pairs.map Prod.snd).Nodup
  | [], _, _ => ⟨fun n j _ => by simp, List.nodup_nil⟩
  | (i, n) :: rest, seen, h => by
      rw [dupScan] at h
      rcases hl : seen.lookup n with _ | j <;> rw [hl] at h
      · have ih := dupScan_ok_nodup k rest ((n, i) :: seen) h
        constructor
        · intro n' j' hmem
          simp only [List.map_cons, List.mem_cons]
          rintro (rfl | hin)
          · exact lookup_none_not_mem seen n' hl j' hmem
          · exact ih.1 n' j' (List.mem_cons_of_mem _ hmem) hin
        · simp only [List.map_cons, List.nodup_cons]
          exact ⟨ih.1 n i (List.mem_cons_self _ _), ih.2⟩
      · simp at h

theorem dupScan_err_sound (k : DeclKind) :
    ∀ (pairs : List (Nat × String)) (seen : List (String × Nat)) (e : MergeError),
      dupScan k pairs seen = .error e →
      ∃ n i j, e = .duplicateSymbol k n j i ∧ (i, n) ∈ pairs ∧
        ((n, j) ∈ seen ∨ ((j, n) ∈ pairs ∧ 2 ≤ (pairs.map Prod.snd).count n))
  | [], _, _, h => by simp [dupScan] at h
  | (i0, n0) :: rest, seen, e, h => by
      rw [dupScan] at h
      rcases hl : seen.lookup n0 with _ | j0 <;> rw [hl] at h
      · obtain ⟨n, i, j, he, hmem, hrest⟩ := dupScan_err_sound k rest ((n0, i0) :: seen) e h
        refine ⟨n, i, j, he, List.mem_cons_of_mem _ hmem, ?_⟩
        rcases hrest with hseen | ⟨hj, hc⟩
        · rcases List.mem_cons.mp hseen with heq | hseen'
          · rw [Prod.mk.injEq] at heq
            right
            refine ⟨?_, ?_⟩
            · rw [heq.2, ← heq.1]
              exact List.mem_cons_self _ _
            · have hn : n ∈ rest.map Prod.snd := List.mem_map_of_mem Prod.snd hmem
              have h1 : 0 < (rest.map Prod.snd).count n := List.count_pos_iff.mpr hn
              rw [List.map_cons, List.count_cons]
              have hb : (n0 == n) = true := by rw [beq_iff_eq]; exact heq.1.symm
              rw [hb, if_pos rfl]
              omega
          · exact Or.inl hseen'
        · refine Or.inr ⟨List.mem_cons_of_mem _ hj, ?_⟩
          rw [List.map_cons, List.count_cons]
          split_ifs <;> omega
      · injection h with h
        exact ⟨n0, i0, j0, h.symm, List.mem_cons_self _ _, Or.inl (lookup_mem seen n0 j0 hl)⟩

theorem mem_enumFrom : ∀ (l : List α) (k i : Nat) (a : α),
    (i, a) ∈ enumFrom k l ↔ ∃ m, i = k + m ∧ l.get? m = some a
  | [], k, i, a => by simp [enumFrom]
  | b :: l, k, i, a => by
      rw [enumFrom]
      simp only [List.mem_cons, Prod.mk.injEq, mem_enumFrom l (k + 1) i a]
      constructor
      · rintro (⟨rfl, rfl⟩ | ⟨m, rfl, hm⟩)
        · exact ⟨0, by omega, rfl⟩
        · exact ⟨m + 1, by omega, hm⟩
      · rintro ⟨m, rfl, hm⟩
        rcases m with _ | m
        · injection hm with hm
          exact Or.inl ⟨by omega, hm.symm⟩
        · exact Or.inr ⟨m, by omega, hm⟩

theorem map_snd_kindIndexedNames (k : DeclKind) (files : List FileDescriptorProto) :
    (kindIndexedNames k files).map Prod.snd = allKindNames k files := by
  rw [kindIndexedNames, allKindNames]
  suffices h : ∀ (start : Nat),
      ((enumFrom start files).flatMap
        (fun p => (kindNames k p.2).map (fun n => (p.1, n)))).map Prod.snd =
      files.flatMap (kindNames k) from h 0
  induction files with
  | nil => intro start; rfl
  | cons f l ih =>
      intro start
      rw [enumFrom, List.flatMap_cons, List.flatMap_cons, List.map_append, ih (start + 1),
        List.map_map]
      apply congrArg (fun x => x ++ l.flatMap (kindNames k))
      simp

theorem mem_kindIndexedNames (k : DeclKind) (files : List FileDescriptorProto)
    (i : Nat) (n : String) :
    (i, n) ∈ kindIndexedNames k files ↔ declaresKind k files n i := by
  rw [kindIndexedNames, declaresKind]
  simp only [List.mem_flatMap, List.mem_map]
  constructor
  · rintro ⟨p, hp, n', hn', heq⟩
    rw [Prod.mk.injEq] at heq
    obtain ⟨m, hm, hget⟩ := (mem_enumFrom files 0 p.1 p.2).mp (by
      rcases p with ⟨p1, p2⟩; exact hp)
    refine ⟨p.2, ?_, ?_⟩
    · have him : i = m := by omega
      rw [him]
      exact hget
    · rw [← heq.2]; exact hn'
  · rintro ⟨f, hget, hn⟩
    refine ⟨(i, f), ?_, n, hn, rfl⟩
    exact (mem_enumFrom files 0 i f).mpr ⟨i, by omega, hget⟩

theorem indexedDeclNames_message (files : List FileDescriptorProto) :
    indexedDeclNames (fun f => f.message_type) DescriptorProto.nameD files =
      kindIndexedNames .message files := by
  rw [indexedDeclNames, kindIndexedNames]
  apply congrArg
  funext p
  rw [kindNames, List.map_map]
  rfl

theorem indexedDeclNames_enum (files : List FileDescriptorProto) :
    indexedDeclNames (fun f => f.enum_type) EnumDescriptorProto.nameD files =
      kindIndexedNames .enum files := by
  rw [indexedDeclNames, kindIndexedNames]
  apply congrArg
  funext p
  rw [kindNames, List.map_map]
  rfl

theorem indexedDeclNames_service (files : List FileDescriptorProto) :
    indexedDeclNames (fun f => f.service) ServiceDescriptorProto.nameD files =
      kindIndexedNames .service files := by
  rw [indexedDeclNames, kindIndexedNames]
  apply congrArg
  funext p
  rw [kindNames, List.map_map]
  rfl

theorem validate_ok_of_le_one (files : List FileDescriptorProto)
    (h : (syntaxSet files).length ≤ 1) :
    validate_syntax_consistency files = .ok ((syntaxSet files).headD "proto2") := by
  rw [validate_syntax_consistency]
  simp [show ¬1 < (syntaxSet files).length from by omega]

theorem merge_messages_error_iff (files : List FileDescriptorProto) (e : MergeError) :
    merge_messages files = .error e ↔
      dupScan .message (kindIndexedNames .message files) [] = .error e := by
  rw [merge_messages, indexedDeclNames_message]
  rcases hd : dupScan .message (kindIndexedNames .message files) [] with e' | u <;> simp

theorem merge_enums_error_iff (files : List FileDescriptorProto) (e : MergeError) :
    merge_enums files = .error e ↔
      dupScan .enum (kindIndexedNames .enum files) [] = .error e := by
  rw [merge_enums, indexedDeclNames_enum]
  rcases hd : dupScan .enum (kindIndexedNames .enum files) [] with e' | u <;> simp

theorem merge_services_error_iff (files : List FileDescriptorProto) (e : MergeError) :
    merge_services files = .error e ↔
      dupScan .service (kindIndexedNames .service files) [] = .error e := by
  rw [merge_services, indexedDeclNames_service]
  rcases hd : dupScan .service (kindIndexedNames .service files) [] with e' | u <;> simp

/-- A failing per-kind duplicate scan yields an error whose payload names
a genuinely duplicated symbol and two files that both declare it. -/
theorem merge_kind_error_payload (k : DeclKind) (files : List FileDescriptorProto)
    (e : MergeError) (h : dupScan k (kindIndexedNames k files) [] = .error e) :
    ∃ n' i' j', e = .duplicateSymbol k n' i' j' ∧ declaresKind k files n' i' ∧
      declaresKind k files n' j' ∧ 2 ≤ (allKindNames k files).count n' := by
  obtain ⟨n, i, j, he, hmem, hrest⟩ := dupScan_err_sound k _ [] e h
  rcases hrest with hseen | ⟨hj, hc⟩
  · simp at hseen
  refine ⟨n, j, i, he, (mem_kindIndexedNames k files j n).mp hj,
    (mem_kindIndexedNames k files i n).mp hmem, ?_⟩
  rw [← map_snd_kindIndexedNames]
  exact hc

theorem merge_kind_ok_of_nodup (k : DeclKind) (files : List FileDescriptorProto)
    (h : (allKindNames k files).Nodup) :
    dupScan k (kindIndexedNames k files) [] = .ok () := by
  apply dupScan_ok_of_nodup
  · rw [map_snd_kindIndexedNames]
    exact h
  · intro p _
    rfl

/-- C4: two files declaring a same-kind top-level symbol of the same name
make the merge fail (given the group is syntactically consistent, so the
earlier syntax check passes) with a duplicate-symbol error naming a
genuinely duplicated symbol together with two declaring file indices;
and uniqueness is per kind only: with per-kind name uniqueness the merge
succeeds even when a message and a service share a name. -/
theorem C4_duplicate_symbol_detection :
    (∀ (pkg : String) (files : List FileDescriptorProto) (k : DeclKind)
        (n : String) (i j : Nat), i ≠ j →
      declaresKind k files n i → declaresKind k files n j →
      (syntaxSet files).length ≤ 1 →
      ∃ k' n' i' j', build_merged pkg files = .error (.duplicateSymbol k' n' i' j') ∧
        declaresKind k' files n' i' ∧ declaresKind k' files n' j' ∧
        2 ≤ (allKindNames k' files).count n') ∧
    (∀ (pkg : String) (files : List FileDescriptorProto),
      (syntaxSet files).length ≤ 1 →
      (allKindNames .message files).Nodup →
      (allKindNames .enum files).Nodup →
      (allKindNames .service files).Nodup →
      ∃ dw, build_merged pkg files = .ok dw) := by
  constructor
  · intro pkg files k n i j hij hdi hdj hsyn
    have hval := validate_ok_of_le_one files hsyn
    have hknotnodup : ¬(allKindNames k files).Nodup := by
      intro hnodup
      have h1 : (i, n) ∈ kindIndexedNames k files := (mem_kindIndexedNames k files i n).mpr hdi
      have h2 : (j, n) ∈ kindIndexedNames k files := (mem_kindIndexedNames k files j n).mpr hdj
      have hinj := @List.inj_on_of_nodup_map _ _ Prod.snd (kindIndexedNames k files)
        (by rw [map_snd_kindIndexedNames]; exact hnodup)
      have := hinj h1 h2 rfl
      rw [Prod.mk.injEq] at this
      exact hij this.1
    rcases hm : merge_messages files with em | msgs
    · obtain ⟨n', i', j', he, hd1, hd2, hc⟩ := merge_kind_error_payload .message files em
        ((merge_messages_error_iff files em).mp hm)
      refine ⟨.message, n', i', j', ?_, hd1, hd2, hc⟩
      rw [build_merged, hval, hm, he]
    rcases hen : merge_enums files with ee | enums
    · obtain ⟨n', i', j', he, hd1, hd2, hc⟩ := merge_kind_error_payload .enum files ee
        ((merge_enums_error_iff files ee).mp hen)
      refine ⟨.enum, n', i', j', ?_, hd1, hd2, hc⟩
      rw [build_merged, hval, hm, hen, he]
    rcases hs : merge_services files with es | svcs
    · obtain ⟨n', i', j', he, hd1, hd2, hc⟩ := merge_kind_error_payload .service files es
        ((merge_services_error_iff files es).mp hs)
      refine ⟨.service, n', i', j', ?_, hd1, hd2, hc⟩
      rw [build_merged, hval, hm, hen, hs, he]
    · exfalso
      apply hknotnodup
      rcases hd : dupScan k (kindIndexedNames k files) [] with e' | u
      · exfalso
        cases k
        · have h' : merge_messages files = .error e' :=
            (merge_messages_error_iff files e').mpr hd
          rw [hm] at h'
          exact absurd h' (by simp)
        · have h' : merge_enums files = .error e' :=
            (merge_enums_error_iff files e').mpr hd
          rw [hen] at h'
          exact absurd h' (by simp)
        · have h' : merge_services files = .error e' :=
            (merge_services_error_iff files e').mpr hd
          rw [hs] at h'
          exact absurd h' (by simp)
      · cases u
        have hnd := (dupScan_ok_nodup k _ [] hd).2
        rw [map_snd_kindIndexedNames] at hnd
        exact hnd
  · intro pkg files hsyn hm he hs
    have hval := validate_ok_of_le_one files hsyn
    have h1 := merge_kind_ok_of_nodup .message files hm
    have h2 := merge_kind_ok_of_nodup .enum files he
    have h3 := merge_kind_ok_of_nodup .service files hs
    have hm' : merge_messages files = .ok (sortByKey (fun a b => strLeB a.nameD b.nameD)
        (files.flatMap (fun f => f.message_type))) := by
      rw [merge_messages, indexedDeclNames_message, h1]
    have he' : merge_enums files = .ok (sortByKey (fun a b => strLeB a.nameD b.nameD)
        (files.flatMap (fun f => f.enum_type))) := by
      rw [merge_enums, indexedDeclNames_enum, h2]
    have hs' : merge_services files = .ok (sortByKey (fun a b => strLeB a.nameD b.nameD)
        (files.flatMap (fun f => f.service))) := by
      rw [merge_services, indexedDeclNames_service, h3]
    rcases hb : build_merged pkg files with e | dw
    · exfalso
      rw [build_merged, hval, hm', he', hs'] at hb
      exact absurd hb (by simp)
    · exact ⟨dw, rfl⟩

/-- C4 witness: two files both declaring `message User` trip the
duplicate check; a message named `User` and a service named `User` merge
without error. -/
theorem C4_duplicate_symbol_detection_witness :
    (build_merged "t" [fdU1, fdU2]).isOk = false ∧
    (build_merged "t" [fdU1, fdUService]).isOk = true := by
  constructor
  · obtain ⟨k', n', i', j', herr, -, -, -⟩ :=
      C4_duplicate_symbol_detection.1 "t" [fdU1, fdU2] .message "User" 0 1
        (by decide) ⟨fdU1, rfl, by decide⟩ ⟨fdU2, rfl, by decide⟩ (by decide)
    rw [herr]
    rfl
  · obtain ⟨dw, hok⟩ := C4_duplicate_symbol_detection.2 "t" [fdU1, fdUService]
      (by decide) (by decide) (by decide) (by decide)
    rw [hok]
    rfl

/-- C6: a `REPEATED` message-typed field whose `type_name`'s final
component names a nested message of the enclosing message with
`map_entry = true` and exactly two fields named `key` and `value`
renders as `map<K, V> <name> = <number>[ [<options>]];` (with `K`, `V`
given by the usual type rules, `mapSideType`), and the synthetic entry
message itself is never emitted as a message. -/
theorem C6_map_field_rendering (opts : TextGeneratorOptions)
    (file : FileDescriptorProto) (m E : DescriptorProto)
    (f kf vf : FieldDescriptorProto) (tn K V : String) (ind : Nat) (syn : String)
    (hlab : f.label = some 3) (hty : f.type_ = some 11) (htn : f.type_name = some tn)
    (hfind : m.nested_type.find? (fun n => n.nameD == lastComponent tn) = some E)
    (hmap : is_map_entry E = true)
    (hlen : E.field.length = 2)
    (hkey : E.field.find? (fun g => g.nameD == "key") = some kf)
    (hval : E.field.find? (fun g => g.nameD == "value") = some vf)
    (hK : mapSideType kf = some K) (hV : mapSideType vf = some V) :
    (∀ fuel, write_field (fuel + 1) opts file (some m) ind syn f =
      indentStr opts ind ++ "map<" ++ K ++ ", " ++ V ++ "> " ++ f.nameD ++ " = " ++
        toString f.numberD ++ fieldOptionsString file f ++ ";\n") ∧
    (∀ fuel cm ind' syn', write_message (fuel + 1) opts file cm ind' syn' E = "") := by
  have hinfo : mapFieldInfo (some m) f = some (K, V) := by
    rw [mapFieldInfo, hlab, hty, htn]
    simp only [hfind, hmap, hlen, hkey, hval, hK, hV, bne_self_eq_false,
      Bool.not_true, Bool.false_eq_true, if_false]
  constructor
  · intro fuel
    simp only [write_field, hinfo]
  · intro fuel cm ind' syn'
    simp only [write_message, hmap, if_true]

/-- C6 witness: `map<string, int32> m = 1;` with entry message `MEntry`
suppressed. -/
theorem C6_map_field_rendering_witness :
    write_field 1 defaultTGOptions fdW6 (some mapMsgW) 1 "proto3" mapFieldW =
      indentStr defaultTGOptions 1 ++ "map<" ++ "string" ++ ", " ++ "int32" ++ "> " ++
        mapFieldW.nameD ++ " = " ++ toString mapFieldW.numberD ++
        fieldOptionsString fdW6 mapFieldW ++ ";\n" ∧
    write_message 1 defaultTGOptions fdW6 none 0 "proto3" mapEntryW = "" := by
  have h := C6_map_field_rendering defaultTGOptions fdW6 mapMsgW mapEntryW
    mapFieldW kfW6 vfW6 ".test.M.MEntry" "string" "int32" 1 "proto3"
    (by rfl) (by rfl) (by rfl) (by rfl) (by rfl) (by rfl)
    (by rfl) (by rfl) (by rfl) (by rfl)
  exact ⟨h.1 0, h.2 0 none 0 "proto3"⟩

theorem join_cons (s : String) (l : List String) :
    String.join (s :: l) = s ++ String.join l := by
  have hacc : ∀ (l : List String) (a : String),
      List.foldl (fun r t => r ++ t) a l = a ++ List.foldl (fun r t => r ++ t) "" l := by
    intro l
    induction l with
    | nil => intro a; simp [String.append_empty]
    | cons t l ih =>
        intro a
        rw [List.foldl_cons, List.foldl_cons, ih (a ++ t), ih ("" ++ t),
          String.empty_append, String.append_assoc]
  show List.foldl (fun r t => r ++ t) "" (s :: l) = _
  rw [List.foldl_cons, String.empty_append, hacc l s]
  rfl

theorem join_mem_split {x : String} : ∀ {l : List String}, x ∈ l →
    ∃ pre post, String.join l = pre ++ x ++ post := by
  intro l
  induction l with
  | nil => intro h; simp at h
  | cons y l ih =>
      intro h
      rcases List.mem_cons.mp h with rfl | hmem
      · exact ⟨"", String.join l, by rw [join_cons, String.empty_append]⟩
      · obtain ⟨pre, post, hsp⟩ := ih hmem
        exact ⟨y ++ pre, post, by rw [join_cons, hsp, String.append_assoc,
          String.append_assoc, String.append_assoc]⟩

theorem split_append_right (s t block : String)
    (h : ∃ p q, s = p ++ block ++ q) : ∃ p q, s ++ t = p ++ block ++ q := by
  obtain ⟨p, q, hs⟩ := h
  exact ⟨p, q ++ t, by rw [hs, String.append_assoc, String.append_assoc]⟩

theorem split_append_left (s t block : String)
    (h : ∃ p q, t = p ++ block ++ q) : ∃ p q, s ++ t = p ++ block ++ q := by
  obtain ⟨p, q, ht⟩ := h
  exact ⟨s ++ p, q, by rw [ht, String.append_assoc, String.append_assoc,
    String.append_assoc]⟩

/-- C7 counterexample: under `proto2` syntax, the single non-synthetic
member of oneof `choice` renders inside the oneof body WITH the label
prefix `optional ` (the claim says no label prefix regardless of the
syntax version). -/
theorem C7_counterexample :
    oneofMembers msgW7 0 = [fieldW7] ∧
    labelString "proto2" fieldW7 = "optional " ∧
    write_oneof 1 defaultTGOptions fdW7 (some msgW7) 1 "proto2" [fieldW7] oneofW7 =
      "  oneof choice \x7b\n    optional string a = 1;\n  \x7d\n" := by
  refine ⟨by decide, by decide, by decide⟩

/-- C7 amended: for every oneof with at least one non-synthetic member,
`write_message` emits the `oneof <name> { ... }` block; when the file
syntax is NOT `proto2`, every non-`REPEATED` member field renders inside
the body exactly as it would with no label at all (the label prefix is
elided); under `proto2` labels render by the ordinary field rules. -/
theorem C7_oneof_rendering (fuel : Nat) (opts : TextGeneratorOptions)
    (file : FileDescriptorProto) (m : DescriptorProto) (cm : Option DescriptorProto)
    (ind : Nat) (syn : String) (i : Nat) (o : OneofDescriptorProto)
    (hmap : is_map_entry m = false)
    (ho : m.oneof_decl.get? i = some o)
    (hne : oneofMembers m i ≠ []) :
    (∃ pre post, write_message (fuel + 1) opts file cm ind syn m =
      pre ++ write_oneof fuel opts file (some m) (ind + 1) syn (oneofMembers m i) o
        ++ post) ∧
    (syn ≠ "proto2" →
      ∀ f ∈ oneofMembers m i, f.label ≠ some 3 →
        write_field fuel opts file (some m) (ind + 1) syn f =
          write_field fuel opts file (some m) (ind + 1) syn { f with label := none }) := by
  constructor
  · have hmem : (i, o) ∈ enumFrom 0 m.oneof_decl :=
      (mem_enumFrom m.oneof_decl 0 i o).mpr ⟨i, by omega, ho⟩
    have hblock : write_oneof fuel opts file (some m) (ind + 1) syn (oneofMembers m i) o ∈
        oneofBlocks fuel opts file m (ind + 1) syn := by
      rw [oneofBlocks]
      have := List.mem_map_of_mem (fun p : Nat × OneofDescriptorProto =>
        let fs := oneofMembers m p.1
        if fs.isEmpty then ""
        else write_oneof fuel opts file (some m) (ind + 1) syn fs p.2) hmem
      simpa [List.isEmpty_eq_false.mpr hne] using this
    have hsp := join_mem_split hblock
    simp only [write_message, hmap, Bool.false_eq_true, if_false]
    apply split_append_right
    apply split_append_right
    apply split_append_right
    apply split_append_right
    apply split_append_right
    apply split_append_left
    exact hsp
  · intro hsyn f hf hlab3
    have hp3 : f.proto3_optional.getD false = false := by
      rw [oneofMembers] at hf
      have := (List.mem_filter.mp hf).2
      rcases hp : f.proto3_optional.getD false
      · rfl
      · rw [hp] at this
        simp at this
    have hlabF : labelString syn f = "" := by
      rw [labelString]
      rcases hfl : f.label with _ | l
      · rfl
      · have hl3 : (l == 3) = false := by
          rw [beq_eq_false_iff_ne]
          intro h
          exact hlab3 (by rw [hfl, h])
        have hsyn2 : (syn == "proto2") = false := by
          rw [beq_eq_false_iff_ne]
          exact hsyn
        simp [hl3, hsyn2, hp3]
    have hmapF : mapFieldInfo (some m) f = none := by
      rw [mapFieldInfo]
      rcases hfl : f.label with _ | l
      · rfl
      · have hl3 : (l != 3) = true := by
          simp only [bne_iff_ne, ne_eq]
          intro h
          exact hlab3 (by rw [hfl, h])
        simp [hl3]
    rcases fuel with _ | fuel
    · rfl
    · simp only [write_field, hmapF, hlabF]
      rfl

/-- Witness for the amended C7 theorem: the same oneof under `proto3`
(the emitted message contains the oneof block, so it is at least as long;
and the member renders exactly as its unlabelled copy). -/
theorem C7_oneof_rendering_witness :
    (write_oneof 1 defaultTGOptions fdW7b (some msgW7) 1 "proto3"
        (oneofMembers msgW7 0) oneofW7).length ≤
      (write_message 2 defaultTGOptions fdW7b none 0 "proto3" msgW7).length ∧
    write_field 1 defaultTGOptions fdW7b (some msgW7) 1 "proto3" fieldW7 =
      write_field 1 defaultTGOptions fdW7b (some msgW7) 1 "proto3"
        { fieldW7 with label := none } := by
  have h := C7_oneof_rendering 1 defaultTGOptions fdW7b msgW7 none 0 "proto3" 0 oneofW7
    (by rfl) (by rfl) (by decide)
  constructor
  · obtain ⟨pre, post, heq⟩ := h.1
    have heq2 : write_message 2 defaultTGOptions fdW7b none 0 "proto3" msgW7 =
        pre ++ write_oneof 1 defaultTGOptions fdW7b (some msgW7) 1 "proto3"
          (oneofMembers msgW7 0) oneofW7 ++ post := heq
    rw [heq2, String.length_append, String.length_append]
    omega
  · exact h.2 (by decide) fieldW7 (by decide) (by decide)

theorem keys_insertGrouped (p : String) (f : FileDescriptorProto) :
    ∀ (m : List (String × List FileDescriptorProto)) (q : String),
      q ∈ (insertGrouped p f m).map Prod.fst ↔ q = p ∨ q ∈ m.map Prod.fst
  | [], q => by simp [insertGrouped]
  | (q0, g) :: rest, q => by
      rw [insertGrouped]
      split_ifs with h1 h2
      · rw [beq_iff_eq] at h1
        subst h1
        simp only [List.map_cons, List.mem_cons]
        tauto
      · simp only [List.map_cons, List.mem_cons]
      · simp only [List.map_cons, List.mem_cons, keys_insertGrouped p f rest q]
        tauto

theorem pairwise_keys_insertGrouped (p : String) (f : FileDescriptorProto) :
    ∀ m : List (String × List FileDescriptorProto),
      List.Pairwise (· < ·) (m.map Prod.fst) →
      List.Pairwise (· < ·) ((insertGrouped p f m).map Prod.fst)
  | [], _ => by simp [insertGrouped]
  | (q0, g) :: rest, h => by
      rw [List.map_cons, List.pairwise_cons] at h
      rw [insertGrouped]
      split_ifs with h1 h2
      · rw [beq_iff_eq] at h1
        subst h1
        rw [List.map_cons, List.pairwise_cons]
        exact h
      · rw [strLtB_iff] at h2
        rw [List.map_cons, List.map_cons, List.pairwise_cons]
        refine ⟨?_, List.pairwise_cons.mpr h⟩
        intro x hx
        rcases List.mem_cons.mp hx with rfl | hx
        · exact h2
        · exact lt_trans h2 (h.1 x hx)
      · have hq0p : q0 < p := by
          rcases lt_trichotomy p q0 with hlt | heq | hgt
          · exact absurd ((strLtB_iff p q0).mpr hlt) h2
          · exfalso
            apply h1
            rw [beq_iff_eq]
            exact heq
          · exact hgt
        rw [List.map_cons, List.pairwise_cons]
        refine ⟨?_, pairwise_keys_insertGrouped p f rest h.2⟩
        intro x hx
        rcases (keys_insertGrouped p f rest x).mp hx with rfl | hx
        · exact hq0p
        · exact h.1 x hx

theorem foldl_insertGrouped_inv :
    ∀ (files : List FileDescriptorProto) (m : List (String × List FileDescriptorProto)),
      List.Pairwise (· < ·) (m.map Prod.fst) →
      List.Pairwise (· < ·)
        ((files.foldl (fun m f => insertGrouped (f.package.getD "") f m) m).map Prod.fst) ∧
      (∀ q, q ∈ (files.foldl (fun m f =>
          insertGrouped (f.package.getD "") f m) m).map Prod.fst ↔
        q ∈ m.map Prod.fst ∨ q ∈ files.map (fun f => f.package.getD ""))
  | [], m, h => ⟨h, by simp⟩
  | f :: files, m, h => by
      rw [List.foldl_cons]
      have ih := foldl_insertGrouped_inv files (insertGrouped (f.package.getD "") f m)
        (pairwise_keys_insertGrouped _ f m h)
      refine ⟨ih.1, ?_⟩
      intro q
      rw [ih.2 q, keys_insertGrouped]
      simp only [List.map_cons, List.mem_cons]
      tauto

theorem merge_package_group_name (parse : String → Except String FileDescriptorProto)
    (pkg : String) (files : List FileDescriptorProto) (r : MergeResult)
    (h : merge_package_group parse pkg files = .ok r) : r.package_name = pkg := by
  rw [merge_package_group] at h
  rcases hb : build_merged pkg files with e | dw <;> rw [hb] at h
  · simp at h
  simp only at h
  rcases hf : generate_fingerprint parse (format_file defaultTGOptions dw.1) with e | fp <;>
    rw [hf] at h
  · simp at h
  · injection h with h
    rw [← h]

theorem mergeGroups_names (parse : String → Except String FileDescriptorProto) :
    ∀ (groups : List (String × List FileDescriptorProto)) (results : List MergeResult),
      mergeGroups parse groups = .ok results →
      results.map MergeResult.package_name = groups.map Prod.fst
  | [], results, h => by
      rw [mergeGroups] at h
      injection h with h
      rw [← h]
      rfl
  | (pkg, g) :: rest, results, h => by
      rw [mergeGroups] at h
      rcases hm : merge_package_group parse pkg g with e | r <;> rw [hm] at h
      · simp at h
      rcases hr : mergeGroups parse rest with e | rs <;> rw [hr] at h
      · simp at h
      · injection h with h
        rw [← h, List.map_cons, List.map_cons, mergeGroups_names parse rest rs hr,
          merge_package_group_name parse pkg g r hm]

theorem map_name_sortByKey_eq (results : List MergeResult)
    (hsorted : List.Pairwise (· < ·) (results.map MergeResult.package_name)) :
    (sortByKey (fun a b => strLeB a.package_name b.package_name) results).map
        MergeResult.package_name =
      results.map MergeResult.package_name := by
  have hperm : List.Perm
      ((sortByKey (fun a b => strLeB a.package_name b.package_name) results).map
        MergeResult.package_name)
      (results.map MergeResult.package_name) :=
    (perm_sortByKey _ results).map MergeResult.package_name
  have hs1 : List.Pairwise (· ≤ ·)
      ((sortByKey (fun a b => strLeB a.package_name b.package_name) results).map
        MergeResult.package_name) := by
    rw [List.pairwise_map]
    exact pairwise_key_le_sortByKey_str MergeResult.package_name results
  have hs2 : List.Pairwise (· ≤ ·) (results.map MergeResult.package_name) :=
    hsorted.imp le_of_lt
  exact List.eq_of_perm_of_sorted hperm hs1 hs2

/-- C5: `merge_by_package` maps the empty input to the empty output, and
every successful run returns exactly one `MergeResult` per distinct
package name of the parsed files (strictly ascending by `package_name`,
hence also duplicate-free). -/
theorem C5_merge_by_package_shape (parse : String → Except String FileDescriptorProto) :
    merge_by_package parse [] = .ok [] ∧
    (∀ files res, merge_by_package parse files = .ok res →
      ∃ parsed, parse_all_files parse 0 files = .ok parsed ∧
        List.Pairwise (· < ·) (res.map MergeResult.package_name) ∧
        (∀ p, p ∈ res.map MergeResult.package_name ↔
          p ∈ parsed.map (fun f => f.package.getD ""))) := by
  refine ⟨rfl, ?_⟩
  intro files res hok
  rw [merge_by_package] at hok
  rcases hemp : files.isEmpty with _ | _ <;> rw [hemp] at hok
  · simp only [Bool.false_eq_true, if_false] at hok
    rcases hp : parse_all_files parse 0 files with e | parsed <;> rw [hp] at hok
    · simp at hok
    simp only at hok
    rcases hg : mergeGroups parse (group_by_package parsed) with e | results <;>
      rw [hg] at hok
    · simp at hok
    injection hok with hok
    have hnames := mergeGroups_names parse (group_by_package parsed) results hg
    have hinv := foldl_insertGrouped_inv parsed [] (by simp)
    have hkeys : List.Pairwise (· < ·) (results.map MergeResult.package_name) := by
      rw [hnames]
      exact hinv.1
    refine ⟨parsed, rfl, ?_, ?_⟩
    · rw [← hok, map_name_sortByKey_eq results hkeys]
      exact hkeys
    · intro p
      rw [← hok, map_name_sortByKey_eq results hkeys, hnames]
      have := hinv.2 p
      simp only [List.map_nil, List.not_mem_nil, false_or] at this
      exact this
  · rw [if_pos rfl] at hok
    injection hok with hok
    refine ⟨[], ?_, ?_, ?_⟩
    · rw [List.isEmpty_iff.mp hemp]
      rfl
    · rw [← hok]
      exact List.Pairwise.nil
    · intro p
      rw [← hok]
      simp

/-- C5 witness: the empty input, and a two-package input (`a` and `b`). -/
theorem C5_merge_by_package_shape_witness :
    merge_by_package parseW5 [] = .ok [] ∧
    List.Pairwise LT.lt
      ((exceptOkD (merge_by_package parseW5 ["fa", "fb"]) []).map
        MergeResult.package_name) := by
  constructor
  · exact (C5_merge_by_package_shape parseW5).1
  · obtain ⟨parsed, -, hpw, -⟩ :=
      (C5_merge_by_package_shape parseW5).2 ["fa", "fb"] _ (by rfl)
    exact hpw

theorem hexDigitChar_mem (n : Nat) : hexDigitChar n ∈ hexChars := by
  rw [hexDigitChar]
  by_cases h : n < hexChars.length
  · rw [List.getD_eq_getElem hexChars _ h]
    exact List.getElem_mem h
  · rw [List.getD_eq_default hexChars _ (le_of_not_lt h)]
    decide

theorem wordToHex_length (w : Nat) : (wordToHex w).length = 8 := rfl

theorem mem_wordToHex (w : Nat) (c : Char) (h : c ∈ (wordToHex w).data) :
    c ∈ hexChars := by
  rw [wordToHex] at h
  simp only [List.mem_map] at h
  obtain ⟨k, -, hk⟩ := h
  rw [← hk]
  exact hexDigitChar_mem _

theorem sha256hexBytes_length (msg : List Nat) : (sha256hexBytes msg).length = 64 := by
  rw [sha256hexBytes]
  simp only [String.length_append, wordToHex_length]

theorem mem_sha256hexBytes (msg : List Nat) (c : Char)
    (h : c ∈ (sha256hexBytes msg).data) : c ∈ hexChars := by
  rw [sha256hexBytes] at h
  simp only [String.data_append, List.mem_append, or_assoc] at h
  rcases h with h1 | h1 | h1 | h1 | h1 | h1 | h1 | h1 <;> exact mem_wordToHex _ _ h1

/-- C1: for every package group that merges successfully, the returned
fingerprint equals the 64-character lowercase-hexadecimal SHA-256 digest
of the UTF-8 bytes of the returned canonical content.  The
implementation computes it by reparsing the content and regenerating
before hashing, so the theorem assumes exactly the spec's idempotence
invariant at this content: whatever descriptor the (external, abstract)
parser returns for the canonical text regenerates to the same text. -/
theorem C1_fingerprint_is_digest_of_content
    (parse : String → Except String FileDescriptorProto)
    (pkg : String) (files : List FileDescriptorProto) (mr : MergeResult)
    (hok : merge_package_group parse pkg files = .ok mr)
    (hidem : ∀ d, parse mr.content = .ok d → descriptor_to_proto d = mr.content) :
    mr.fingerprint = sha256hexOfString mr.content ∧
    mr.fingerprint.length = 64 ∧
    ∀ c ∈ mr.fingerprint.data, c ∈ hexChars := by
  rw [merge_package_group] at hok
  rcases hb : build_merged pkg files with e | dw <;> rw [hb] at hok
  · simp at hok
  simp only at hok
  rcases hf : generate_fingerprint parse (format_file defaultTGOptions dw.1) with e | fp <;>
    rw [hf] at hok
  · simp at hok
  injection hok with hok
  subst hok
  rw [generate_fingerprint] at hf
  rcases hp : parse (format_file defaultTGOptions dw.1) with e | d <;> rw [hp] at hf
  · simp at hf
  injection hf with hf
  have hcontent : descriptor_to_proto d = format_file defaultTGOptions dw.1 :=
    hidem d hp
  refine ⟨?_, ?_, ?_⟩
  · show fp = sha256hexOfString (format_file defaultTGOptions dw.1)
    rw [← hf, hcontent]
  · show fp.length = 64
    rw [← hf, sha256hexOfString]
    exact sha256hexBytes_length _
  · show ∀ c ∈ fp.data, c ∈ hexChars
    intro c hc
    rw [← hf, sha256hexOfString] at hc
    exact mem_sha256hexBytes _ c hc

/-- C1 witness: the single-file group `fdW1`, with a parser instance
that satisfies the round-trip property on its canonical text. -/
theorem C1_fingerprint_is_digest_of_content_witness :
    mrW1.fingerprint = sha256hexOfString mrW1.content ∧ mrW1.fingerprint.length = 64 := by
  have h := C1_fingerprint_is_digest_of_content parseW1 "test" [fdW1] mrW1 (by rfl)
    (fun d hd => by
      have hd' : fdW1 = d := by injection hd
      rw [← hd']
      rfl)
  exact ⟨h.1, h.2.1⟩
